import Mathlib

/-! blpconvert: the DXT block codec of `main.c`

A shallow embedding of the BLP2 texture decoder.  Buffers are lists of
natural numbers (one entry per byte), pointers are list suffixes, and every
C expression is evaluated in its C type: `u8`, `u16`, `u32` and `u64` reduce
modulo the width of the unsigned type that holds the result.

Conventions of the embedding:
* a read outside a buffer (undefined in C) yields `0`, a write outside a
  buffer leaves it unchanged; theorems that depend on an access carry the
  length hypotheses that make it in-bounds;
* `memcpy` into an integer is read for a little-endian host;
* uninitialised memory (`malloc`, the scratch tile) has arbitrary content,
  given by a parameter.
-/

namespace BlpConvert

/-! ## Machine arithmetic and memory -/

/-- Value stored in a `uint8_t`. -/
def u8 (n : Nat) : Nat := n % 2 ^ 8

/-- Value stored in a `uint16_t`. -/
def u16 (n : Nat) : Nat := n % 2 ^ 16

/-- Value of a 32-bit unsigned expression. -/
def u32 (n : Nat) : Nat := n % 2 ^ 32

/-- Value stored in a `uint64_t`. -/
def u64 (n : Nat) : Nat := n % 2 ^ 64

/-- Conversion of a 32-bit unsigned value to `int` (two's complement). -/
def toInt (n : Nat) : Int := if n < 2 ^ 31 then (n : Int) else (n : Int) - 2 ^ 32

/-- Read of `m[i]`. -/
def rd (m : List Nat) (i : Nat) : Nat := m.getD i 0

/-- Store `m[i] = v` with an `int` index. -/
def wr (m : List Nat) (i : Int) (v : Nat) : List Nat :=
  if 0 ≤ i then m.set i.toNat v else m

/-- Every entry of the buffer is a byte (the type invariant of `uint8_t *`). -/
def IsBytes (m : List Nat) : Prop := ∀ b ∈ m, b < 256

instance (m : List Nat) : Decidable (IsBytes m) := by
  unfold IsBytes; infer_instance

/-! ## `dxt1_to_rgba` -/

/-- Local `color0` of `dxt1_to_rgba`. -/
def color0 (dxt1_block : List Nat) : Nat :=
  u16 (rd dxt1_block 0 ||| (rd dxt1_block 1 <<< 8))

/-- Local `color1` of `dxt1_to_rgba`. -/
def color1 (dxt1_block : List Nat) : Nat :=
  u16 (rd dxt1_block 2 ||| (rd dxt1_block 3 <<< 8))

/-- Local `color_bits` of `dxt1_to_rgba`. -/
def color_bits (dxt1_block : List Nat) : Nat :=
  u32 (rd dxt1_block 4 ||| (rd dxt1_block 5 <<< 8) ||| (rd dxt1_block 6 <<< 16)
    ||| (rd dxt1_block 7 <<< 24))

/-- Red channel `((c >> 11) & 0x1F) << 3` stored in a `uint8_t`. -/
def red (c : Nat) : Nat := u8 (((c >>> 11) &&& 0x1F) <<< 3)

/-- Green channel `((c >> 5) & 0x3F) << 2` stored in a `uint8_t`. -/
def green (c : Nat) : Nat := u8 (((c >>> 5) &&& 0x3F) <<< 2)

/-- Blue channel `(c & 0x1F) << 3` stored in a `uint8_t`. -/
def blue (c : Nat) : Nat := u8 ((c &&& 0x1F) <<< 3)

/-- The local table `colors[4][4]` of `dxt1_to_rgba` after it is filled. -/
def colors (dxt1_block : List Nat) : List (List Nat) :=
  let r0 := red (color0 dxt1_block)
  let g0 := green (color0 dxt1_block)
  let b0 := blue (color0 dxt1_block)
  let r1 := red (color1 dxt1_block)
  let g1 := green (color1 dxt1_block)
  let b1 := blue (color1 dxt1_block)
  if color0 dxt1_block > color1 dxt1_block then
    [[r0, g0, b0, 255], [r1, g1, b1, 255],
     [u8 ((2 * r0 + r1) / 3), u8 ((2 * g0 + g1) / 3), u8 ((2 * b0 + b1) / 3), 255],
     [u8 ((r0 + 2 * r1) / 3), u8 ((g0 + 2 * g1) / 3), u8 ((b0 + 2 * b1) / 3), 255]]
  else
    [[r0, g0, b0, 255], [r1, g1, b1, 255],
     [u8 ((r0 + r1) / 2), u8 ((g0 + g1) / 2), u8 ((b0 + b1) / 2), 255],
     [0, 0, 0, 0]]

/-- Entry `t[i][k]` of a table of rows. -/
def rd2 (t : List (List Nat)) (i k : Nat) : Nat := rd (t.getD i []) k

/-- Local `color_idx` of the pixel loop of `dxt1_to_rgba`. -/
def color_idx (dxt1_block : List Nat) (i : Nat) : Nat :=
  u8 ((color_bits dxt1_block >>> (i * 2)) &&& 0x3)

/-- One iteration of the pixel loop of `dxt1_to_rgba`. -/
def dxt1_pixel (dxt1_block : List Nat) (rgba_pixels : List Nat) (i : Nat) : List Nat :=
  let c := color_idx dxt1_block i
  let t := colors dxt1_block
  wr (wr (wr (wr rgba_pixels ((i * 4 + 0 : Nat) : Int) (rd2 t c 0))
    ((i * 4 + 1 : Nat) : Int) (rd2 t c 1))
    ((i * 4 + 2 : Nat) : Int) (rd2 t c 2))
    ((i * 4 + 3 : Nat) : Int) (rd2 t c 3)

/-- The function `dxt1_to_rgba`: the tile buffer after the call. -/
def dxt1_to_rgba (dxt1_block : List Nat) (rgba_pixels : List Nat) : List Nat :=
  (List.range 16).foldl (dxt1_pixel dxt1_block) rgba_pixels

/-! ## `dxt3_to_rgba` -/

/-- An integer of `n` bytes copied from memory by `memcpy` (little-endian host). -/
def memcpy_le (src : List Nat) : Nat → Nat
  | 0 => 0
  | n + 1 => rd src 0 + 256 * memcpy_le (src.drop 1) n

/-- Local `alpha` of the loop of `dxt3_to_rgba`. -/
def dxt3_alpha (dxt3_block : List Nat) (i : Nat) : Nat :=
  let alpha_bits := u64 (memcpy_le dxt3_block 8)
  u8 ((((alpha_bits >>> (i * 4)) &&& 0xF) <<< 4) ||| ((alpha_bits >>> (i * 4)) &&& 0xF))

/-- The function `dxt3_to_rgba`: the tile buffer after the call. -/
def dxt3_to_rgba (dxt3_block : List Nat) (rgba_pixels : List Nat) : List Nat :=
  (List.range 16).foldl
    (fun px i => wr px ((i * 4 + 3 : Nat) : Int) (dxt3_alpha dxt3_block i))
    (dxt1_to_rgba (dxt3_block.drop 8) rgba_pixels)

/-! ## `dxt5_to_rgba` -/

/-- The local table `alpha_table[8]` of `dxt5_to_rgba` after it is filled. -/
def alpha_table (dxt5_block : List Nat) : List Nat :=
  let alpha0 := rd dxt5_block 0
  let alpha1 := rd dxt5_block 1
  if alpha0 > alpha1 then
    [alpha0, alpha1,
     u8 ((6 * alpha0 + 1 * alpha1) / 7), u8 ((5 * alpha0 + 2 * alpha1) / 7),
     u8 ((4 * alpha0 + 3 * alpha1) / 7), u8 ((3 * alpha0 + 4 * alpha1) / 7),
     u8 ((2 * alpha0 + 5 * alpha1) / 7), u8 ((1 * alpha0 + 6 * alpha1) / 7)]
  else
    [alpha0, alpha1,
     u8 ((4 * alpha0 + 1 * alpha1) / 5), u8 ((3 * alpha0 + 2 * alpha1) / 5),
     u8 ((2 * alpha0 + 3 * alpha1) / 5), u8 ((1 * alpha0 + 4 * alpha1) / 5),
     0, 255]

/-- Local `alpha_index` of the loop of `dxt5_to_rgba`, with its two branches. -/
def alpha_index (dxt5_block : List Nat) (i : Nat) : Nat :=
  let bit_pos := i * 3
  let byte_pos := bit_pos / 8
  let bit_offset := bit_pos % 8
  if bit_offset > 5 then
    u8 ((rd dxt5_block (2 + byte_pos) >>> bit_offset) |||
      ((rd dxt5_block (2 + byte_pos + 1) &&& ((1 <<< (bit_offset - 5)) - 1))
        <<< (8 - bit_offset)))
  else
    u8 ((rd dxt5_block (2 + byte_pos) >>> bit_offset) &&& 0x07)

/-- The function `dxt5_to_rgba`: the tile buffer after the call.  (The local
`alpha_indices` is copied from the block but never read.) -/
def dxt5_to_rgba (dxt5_block : List Nat) (rgba_pixels : List Nat) : List Nat :=
  (List.range 16).foldl
    (fun px i => wr px ((i * 4 + 3 : Nat) : Int)
      (rd (alpha_table dxt5_block) (alpha_index dxt5_block i)))
    (dxt1_to_rgba (dxt5_block.drop 8) rgba_pixels)

/-! ## `decode_dxt_image` -/

/-- Conversion of an `int` to 32-bit unsigned, as in a comparison or a product
with a `uint32_t`. -/
def toU32 (i : Int) : Nat := (i % 2 ^ 32).toNat

/-- Local `blocks_wide` of `decode_dxt_image`. -/
def blocks_wide (width : Nat) : Nat := u32 (width + 3) / 4

/-- Local `blocks_high` of `decode_dxt_image`. -/
def blocks_high (height : Nat) : Nat := u32 (height + 3) / 4

/-- Local `total_pixels` of `decode_dxt_image`. -/
def total_pixels (width height : Nat) : Nat := u32 (width * height)

/-- Local `block_size` of `decode_dxt_image`. -/
def block_size (dxt_type : Nat) : Nat := if dxt_type = 1 then 8 else 16

/-- The argument `total_pixels * 4` of the `malloc` of `decoded_image`. -/
def decoded_size (width height : Nat) : Nat := u32 (total_pixels width height * 4)

/-- The `switch (dxt_type)` of `decode_dxt_image`: the scratch tile after it. -/
def decode_block (dxt_type : Nat) (dxt_block block_rgba : List Nat) : List Nat :=
  if dxt_type = 1 then dxt1_to_rgba dxt_block block_rgba
  else if dxt_type = 3 then dxt3_to_rgba dxt_block block_rgba
  else if dxt_type = 5 then dxt5_to_rgba dxt_block block_rgba
  else block_rgba

/-- Body of the `px` loop of `decode_dxt_image`: copies one tile pixel. -/
def copy_pixel (width height blk_x blk_y : Nat) (block_rgba decoded_image : List Nat)
    (py px : Nat) : List Nat :=
  let x : Int := toInt (u32 (blk_x * 4 + px))
  let y : Int := toInt (u32 (blk_y * 4 + py))
  if toU32 x ≥ width ∨ toU32 y ≥ height then decoded_image
  else
    let src_idx := (py * 4 + px) * 4
    let dst_idx : Int := toInt (u32 (u32 (u32 (toU32 y * width) + toU32 x) * 4))
    wr (wr (wr (wr decoded_image (dst_idx + 0) (rd block_rgba (src_idx + 0)))
      (dst_idx + 1) (rd block_rgba (src_idx + 1)))
      (dst_idx + 2) (rd block_rgba (src_idx + 2)))
      (dst_idx + 3) (rd block_rgba (src_idx + 3))

/-- The pointer `dxt_block` of the block at `(blk_x, blk_y)`. -/
def dxt_block (image_data : List Nat) (width dxt_type blk_x blk_y : Nat) : List Nat :=
  image_data.drop (u32 (u32 (u32 (blk_y * blocks_wide width) + blk_x) * block_size dxt_type))

/-- Body of the `bx` loop of `decode_dxt_image`: decodes one block into the
scratch tile `block_rgba` (uninitialised, content `stack`) and copies it. -/
def decode_tile (image_data : List Nat) (width height dxt_type : Nat) (stack : Nat → Nat)
    (blk_y : Nat) (decoded_image : List Nat) (blk_x : Nat) : List Nat :=
  let block_rgba := decode_block dxt_type (dxt_block image_data width dxt_type blk_x blk_y)
    ((List.range 64).map stack)
  (List.range 4).foldl
    (fun img py => (List.range 4).foldl
      (fun img px => copy_pixel width height blk_x blk_y block_rgba img py px) img)
    decoded_image

/-- The block loops of `decode_dxt_image`, run on the buffer `decoded_image`. -/
def decode_blocks (image_data : List Nat) (width height dxt_type : Nat) (stack : Nat → Nat)
    (decoded_image : List Nat) : List Nat :=
  (List.range (blocks_high height)).foldl
    (fun img blk_y => (List.range (blocks_wide width)).foldl
      (decode_tile image_data width height dxt_type stack blk_y) img)
    decoded_image

/-- The function `decode_dxt_image` up to the call of the image writer: the
buffer `decoded_image` handed to `stbi_write_*`, or `none` when `malloc` returns
`NULL` (`heap = none`).  A successful `malloc` returns `decoded_size` bytes of
arbitrary content `heap`. -/
def decode_dxt_image (image_data : List Nat) (width height dxt_type : Nat)
    (heap : Option (Nat → Nat)) (stack : Nat → Nat) : Option (List Nat) :=
  match heap with
  | none => none
  | some g =>
    some (decode_blocks image_data width height dxt_type stack
      ((List.range (decoded_size width height)).map g))

/-! ## `convert_blp_file` -/

/-- The fields of `struct blp2header` that `convert_blp_file` uses. -/
structure blp2header where
  ident : List Nat
  type : Nat
  compression : Nat
  alpha_depth : Nat
  alpha_type : Nat
  has_mips : Nat
  width : Nat
  height : Nat
  mipmap_offsets : List Nat
  mipmap_lengths : List Nat
deriving DecidableEq, Repr

/-- The size `sizeof(struct blp2header)` of the packed header. -/
def header_size : Nat := 4 + 4 + 1 + 1 + 1 + 1 + 4 + 4 + 64 + 64 + 1024

/-- A `uint32_t` field at byte offset `off` (little-endian host). -/
def field32 (file : List Nat) (off : Nat) : Nat := memcpy_le (file.drop off) 4

/-- The packed header as `fread` fills it from the first bytes of the file. -/
def read_header (file : List Nat) : blp2header where
  ident := file.take 4
  type := field32 file 4
  compression := rd file 8
  alpha_depth := rd file 9
  alpha_type := rd file 10
  has_mips := rd file 11
  width := field32 file 12
  height := field32 file 16
  mipmap_offsets := (List.range 16).map (fun k => field32 file (20 + 4 * k))
  mipmap_lengths := (List.range 16).map (fun k => field32 file (84 + 4 * k))

/-- The table `type_labels`. -/
def type_labels : List String := ["JPG", "BLP/DXTC/Uncompressed"]

/-- The table `compression_labels`. -/
def compression_labels : List String := ["Invalid", "BLP", "DXTC", "Uncompressed"]

/-- The library and decoder calls that `convert_blp_file` makes.  The arguments
`path` and `format`, which `decode_dxt_image` only passes on to the image writer, are
left out. -/
inductive Call where
  | fopen
  | fread (size : Nat)
  | perror (msg : String)
  | printf (msg : String)
  | malloc (size : Nat)
  | fseek (offset : Nat)
  | free
  | fclose
  | decode_dxt_image (image_data : List Nat) (width height dxt_type : Nat) (verbose : Bool)
deriving DecidableEq, Repr

/-- The `printf` calls of the first block `if (verbose)` of `convert_blp_file`, which
lists the header. -/
def header_listing (verbose : Bool) : List Call :=
  if verbose then
    [.printf "BLP File Details:", .printf "  Type: %u, %s", .printf "  Compression: %u, %s",
     .printf "  Alpha Depth: %u", .printf "  Alpha Type: %u", .printf "  Has Mipmaps: %u",
     .printf "  Width: %u, Height: %u"]
  else []

/-- The `printf` call of the second block `if (verbose)` of `convert_blp_file`. -/
def reading_listing (verbose : Bool) : List Call :=
  if verbose then [.printf "Reading image data at offset %u, size %u bytes"] else []

/-- The `printf` calls of the block `if (verbose)` inside `if (header.compression == 2)`. -/
def dxtc_listing (verbose : Bool) : List Call :=
  if verbose then [.printf "BLP is compressed with DXTC.", .printf "Image has %d bytes."]
  else []

/-- The function `convert_blp_file`: the calls it makes, in order, or `none` when the
run has undefined behaviour.  `file` is the content of the file (`none` when `fopen`
fails), `verbose` is the parameter of that name and `malloc_ok` tells whether the
`malloc` of `image_data` succeeds.  With `verbose` the header listing reads
`type_labels[header.type]` and `compression_labels[header.compression]`; a read outside
one of the two tables is undefined behaviour.  A call of `decode_dxt_image` is
recorded with its arguments; what the callee does is modelled by `decode_dxt_image`
and `verbose_reads`.  An `fread` of one item fails when fewer
bytes than the item are left; `long` is taken to be 64 bits wide, so that `fseek`
accepts every `uint32_t` offset. -/
def convert_blp_file (file : Option (List Nat)) (verbose malloc_ok : Bool) :
    Option (List Call) :=
  match file with
  | none => some [.fopen, .perror "Error opening file"]
  | some bytes =>
    if bytes.length < header_size then
      some [.fopen, .fread header_size, .perror "Error reading header", .fclose]
    else
      let header := read_header bytes
      if header.ident ≠ [0x42, 0x4C, 0x50, 0x32] then
        some [.fopen, .fread header_size, .printf "Invalid BLP file!", .fclose]
      else if verbose = true ∧ ¬ (header.type < type_labels.length
          ∧ header.compression < compression_labels.length) then
        none
      else
        let offset := rd header.mipmap_offsets 0
        let length := rd header.mipmap_lengths 0
        if offset = 0 ∨ length = 0 then
          some ([.fopen, .fread header_size] ++ header_listing verbose
            ++ [.printf "No image data found.", .fclose])
        else if malloc_ok = false then
          some ([.fopen, .fread header_size] ++ header_listing verbose
            ++ reading_listing verbose
            ++ [.malloc length, .perror "Memory allocation failed", .fclose])
        else if bytes.length < offset + length then
          some ([.fopen, .fread header_size] ++ header_listing verbose
            ++ reading_listing verbose
            ++ [.malloc length, .fseek offset, .fread length,
                .perror "Error reading image data", .free, .fclose])
        else
          let image_data := (bytes.drop offset).take length
          let pre := [Call.fopen, .fread header_size] ++ header_listing verbose
            ++ reading_listing verbose ++ [.malloc length, .fseek offset, .fread length]
          if header.compression = 2 then
            if header.alpha_type = 0 then
              some (pre ++ dxtc_listing verbose
                ++ [.decode_dxt_image image_data header.width header.height 1 verbose, .fclose])
            else if header.alpha_type = 1 then
              some (pre ++ dxtc_listing verbose
                ++ [.decode_dxt_image image_data header.width header.height 3 verbose, .fclose])
            else if header.alpha_type = 7 then
              some (pre ++ dxtc_listing verbose
                ++ [.decode_dxt_image image_data header.width header.height 5 verbose, .fclose])
            else
              some (pre ++ dxtc_listing verbose
                ++ [.printf "Unsupported alpha type: %d", .fclose])
          else
            some (pre ++ [.fclose])

/-- A call that allocates a buffer, reads mip data, runs the decoder or writes an
image: everything `convert_blp_file` does past the header checks. -/
def Call.touches_image : Call → Bool
  | .malloc _ => true
  | .fseek _ => true
  | .decode_dxt_image _ _ _ _ _ => true
  | _ => false

/-- Whether a call is a call of `decode_dxt_image`, the only place where the decoded
buffer is allocated, the block decoders run and the image is written. -/
def Call.is_decode : Call → Bool
  | .decode_dxt_image _ _ _ _ _ => true
  | _ => false

/-- The mip-0 slice that `fread` copies into `image_data`. -/
def mip_slice (file : List Nat) : List Nat :=
  (file.drop (rd (read_header file).mipmap_offsets 0)).take
    (rd (read_header file).mipmap_lengths 0)

/-- The calls of a run of `convert_blp_file` that reaches `decode_dxt_image` with
`dxt_type = t`. -/
def decode_run (file : List Nat) (verbose : Bool) (t : Nat) : List Call :=
  [Call.fopen, .fread header_size] ++ header_listing verbose ++ reading_listing verbose
  ++ [.malloc (rd (read_header file).mipmap_lengths 0),
      .fseek (rd (read_header file).mipmap_offsets 0),
      .fread (rd (read_header file).mipmap_lengths 0)]
  ++ dxtc_listing verbose
  ++ [.decode_dxt_image (mip_slice file) (read_header file).width (read_header file).height t
        verbose,
      .fclose]

/-- The calls of the run that ends with `No image data found.` -/
def no_mip_run (verbose : Bool) : List Call :=
  [Call.fopen, .fread header_size] ++ header_listing verbose
  ++ [.printf "No image data found.", .fclose]

/-- Whether the reads `type_labels[header.type]` and
`compression_labels[header.compression]` of the header listing are inside the tables,
or are not made (`verbose` off). -/
def labels_in_bounds (header : blp2header) (verbose : Bool) : Bool :=
  decide (verbose = false ∨ (header.type < 2 ∧ header.compression < 4))

/-- A BLP2 file with a 1172-byte header (`type` of 32 bits, the other fields below
256, mip 0 at `offset`, all other table entries and the palette zero) followed by
`data`. -/
def sample_file (type compression alpha_type width height offset length : Nat)
    (data : List Nat) : List Nat :=
  [0x42, 0x4C, 0x50, 0x32, type % 256, type / 256 % 256, type / 65536 % 256, type / 16777216,
    compression, 0, alpha_type, 0,
    width, 0, 0, 0, height, 0, 0, 0, offset % 256, offset / 256, 0, 0]
  ++ List.replicate 60 0 ++ [length, 0, 0, 0] ++ List.replicate 1084 0 ++ data

/-! ## Definitions that follow the words of the specification -/

/-- Little-endian value of the first `n` bytes of `B`. -/
def le_value (B : List Nat) (n : Nat) : Nat :=
  ((List.range n).map (fun j => rd B j * 256 ^ j)).sum

/-- Bit-window extraction of the specification (section 4.1): the `k` bits at bit
offset `p` of the byte array `B`, `((B[p/8] | B[p/8+1] << 8) >> (p % 8)) & ((1 << k) - 1)`. -/
def bit_window (B : List Nat) (p k : Nat) : Nat :=
  ((rd B (p / 8) ||| (rd B (p / 8 + 1) <<< 8)) >>> (p % 8)) &&& ((1 <<< k) - 1)

/-- Block number `n` of the image data: its `block_size` bytes. -/
def nth_block (image_data : List Nat) (dxt_type n : Nat) : List Nat :=
  (image_data.drop (n * block_size dxt_type)).take (block_size dxt_type)

/-- Palette slot `k` of a colour block: the row `colors[k]`. -/
def slot (dxt1_block : List Nat) (k : Nat) : List Nat := (colors dxt1_block).getD k []

/-- Pixel `i` of a tile or image buffer: its four bytes. -/
def pixel (buf : List Nat) (i : Nat) : List Nat :=
  [rd buf (4 * i), rd buf (4 * i + 1), rd buf (4 * i + 2), rd buf (4 * i + 3)]

/-! ## Memory accesses of the decoders -/

/-- The indices of `dxt5_block` that the loop of `dxt5_to_rgba` reads when it extracts
`alpha_index` for pixel `i`, in the order of the reads. -/
def alpha_index_reads (i : Nat) : List Nat :=
  let bit_pos := i * 3
  let byte_pos := bit_pos / 8
  let bit_offset := bit_pos % 8
  if bit_offset > 5 then [2 + byte_pos, 2 + byte_pos + 1] else [2 + byte_pos]

/-- Local `idx` of the verbose loop of `decode_dxt_image` that prints the first few
pixels, for the loop counters `x` and `y`: `int idx = (y * width + x) * 4`. -/
def verbose_idx (width x y : Nat) : Int :=
  toInt (u32 (u32 (u32 (toU32 (y : Int) * width) + toU32 (x : Int)) * 4))

/-- The indices of `decoded_image` that the verbose loop reads, in order: `idx`,
`idx + 1`, `idx + 2`, `idx + 3` for `y` and `x` from 0 to 3. -/
def verbose_reads (width : Nat) : List Int :=
  (List.range 4).flatMap (fun y => (List.range 4).flatMap (fun x =>
    [verbose_idx width x y, verbose_idx width x y + 1, verbose_idx width x y + 2,
     verbose_idx width x y + 3]))

/-- Offset in `image_data` of the pointer `dxt_block` of the block at `(blk_x, blk_y)`. -/
def block_offset (width dxt_type blk_x blk_y : Nat) : Nat :=
  u32 (u32 (u32 (blk_y * blocks_wide width) + blk_x) * block_size dxt_type)

/-- Indices of `dxt1_block` that `dxt1_to_rgba` reads (`color0`, `color1`, `color_bits`). -/
def dxt1_reads : List Nat := [0, 1, 2, 3, 4, 5, 6, 7]

/-- Indices of `dxt3_block` that `dxt3_to_rgba` reads: the `memcpy` of 8 bytes, then
the colour block at `dxt3_block + 8`. -/
def dxt3_reads : List Nat := List.range 8 ++ dxt1_reads.map (fun j => 8 + j)

/-- Indices of `dxt5_block` that `dxt5_to_rgba` reads: `alpha0`, `alpha1`, the `memcpy`
of 6 bytes from `dxt5_block + 2`, the colour block at `dxt5_block + 8`, then the reads
of the index extraction for the sixteen pixels. -/
def dxt5_reads : List Nat :=
  [0, 1] ++ (List.range 6).map (fun j => 2 + j) ++ dxt1_reads.map (fun j => 8 + j)
    ++ (List.range 16).flatMap alpha_index_reads

/-- Indices of `dxt_block` read by the `switch (dxt_type)` of `decode_dxt_image`. -/
def block_reads (dxt_type : Nat) : List Nat :=
  if dxt_type = 1 then dxt1_reads
  else if dxt_type = 3 then dxt3_reads
  else if dxt_type = 5 then dxt5_reads
  else []

/-- Indices of `image_data` read by `decode_dxt_image` and the block decoders. -/
def input_reads (width height dxt_type : Nat) : List Nat :=
  (List.range (blocks_high height)).flatMap (fun blk_y =>
    (List.range (blocks_wide width)).flatMap (fun blk_x =>
      (block_reads dxt_type).map (fun r => block_offset width dxt_type blk_x blk_y + r)))

/-- Indices of `rgba_pixels` written by the pixel loop of `dxt1_to_rgba`. -/
def dxt1_writes : List Nat :=
  (List.range 16).flatMap (fun i => [i * 4 + 0, i * 4 + 1, i * 4 + 2, i * 4 + 3])

/-- Indices of `rgba_pixels` written by the alpha loop of `dxt3_to_rgba` and of
`dxt5_to_rgba`. -/
def alpha_writes : List Nat := (List.range 16).map (fun i => i * 4 + 3)

/-- Indices of the tile `block_rgba` written by the `switch (dxt_type)`. -/
def block_writes (dxt_type : Nat) : List Nat :=
  if dxt_type = 1 then dxt1_writes
  else if dxt_type = 3 then dxt1_writes ++ alpha_writes
  else if dxt_type = 5 then dxt1_writes ++ alpha_writes
  else []

/-- The test `x >= width || y >= height` of the copy loop of `decode_dxt_image`. -/
def skipped (width height blk_x blk_y py px : Nat) : Bool :=
  decide (toU32 (toInt (u32 (blk_x * 4 + px))) ≥ width
    ∨ toU32 (toInt (u32 (blk_y * 4 + py))) ≥ height)

/-- Local `dst_idx` of the copy loop of `decode_dxt_image`. -/
def dst_idx (width blk_x blk_y py px : Nat) : Int :=
  toInt (u32 (u32 (u32 (toU32 (toInt (u32 (blk_y * 4 + py))) * width)
    + toU32 (toInt (u32 (blk_x * 4 + px)))) * 4))

/-- Local `src_idx` of the copy loop of `decode_dxt_image`. -/
def src_idx (py px : Nat) : Nat := (py * 4 + px) * 4

/-- The four copies of one iteration of the `px` loop: the index read from
`block_rgba` and the index written in `decoded_image` (none when the pixel is skipped). -/
def pixel_accesses (width height blk_x blk_y py px : Nat) : List (Nat × Int) :=
  if skipped width height blk_x blk_y py px then []
  else
    [(src_idx py px + 0, dst_idx width blk_x blk_y py px + 0),
     (src_idx py px + 1, dst_idx width blk_x blk_y py px + 1),
     (src_idx py px + 2, dst_idx width blk_x blk_y py px + 2),
     (src_idx py px + 3, dst_idx width blk_x blk_y py px + 3)]

/-- All the copies of the copy loop of `decode_dxt_image`, in order. -/
def copy_accesses (width height : Nat) : List (Nat × Int) :=
  (List.range (blocks_high height)).flatMap (fun blk_y =>
    (List.range (blocks_wide width)).flatMap (fun blk_x =>
      (List.range 4).flatMap (fun py =>
        (List.range 4).flatMap (fun px => pixel_accesses width height blk_x blk_y py px))))

/-! ## Bit operations as arithmetic -/

theorem and_1 (x : Nat) : x &&& 1 = x % 2 := Nat.and_pow_two_sub_one_eq_mod x 1

theorem and_3 (x : Nat) : x &&& 3 = x % 4 := Nat.and_pow_two_sub_one_eq_mod x 2

theorem and_7 (x : Nat) : x &&& 7 = x % 8 := Nat.and_pow_two_sub_one_eq_mod x 3

theorem and_15 (x : Nat) : x &&& 15 = x % 16 := Nat.and_pow_two_sub_one_eq_mod x 4

theorem and_31 (x : Nat) : x &&& 31 = x % 32 := Nat.and_pow_two_sub_one_eq_mod x 5

theorem and_63 (x : Nat) : x &&& 63 = x % 64 := Nat.and_pow_two_sub_one_eq_mod x 6

/-- An `or` with a value shifted past the bits of the other operand is a sum. -/
theorem or_shl (a b k : Nat) (h : a < 2 ^ k) : a ||| (b <<< k) = a + b * 2 ^ k := by
  rw [Nat.lor_comm, Nat.shiftLeft_eq, Nat.mul_comm b, ← Nat.mul_add_lt_is_or h, Nat.add_comm]

theorem rd_lt (m : List Nat) (hm : IsBytes m) (i : Nat) : rd m i < 256 := by
  unfold rd
  rw [List.getD_eq_getElem?_getD]
  cases h : m[i]? with
  | none => simp
  | some v => exact hm v (List.getElem?_mem h)

theorem rd_drop (m : List Nat) (a i : Nat) : rd (m.drop a) i = rd m (a + i) := by
  simp [rd, List.getD_eq_getElem?_getD, List.getElem?_drop]

theorem rd_take (m : List Nat) (n i : Nat) (h : i < n) : rd (m.take n) i = rd m i := by
  simp [rd, List.getD_eq_getElem?_getD, List.getElem?_take, h]

theorem rd_cons_zero (x : Nat) (l : List Nat) : rd (x :: l) 0 = x := rfl

theorem rd_cons_succ (x : Nat) (l : List Nat) (n : Nat) : rd (x :: l) (n + 1) = rd l n := rfl

theorem isBytes_drop (m : List Nat) (hm : IsBytes m) (a : Nat) : IsBytes (m.drop a) :=
  fun b hb => hm b (List.mem_of_mem_drop hb)

theorem color0_eq (block : List Nat) (hb : IsBytes block) :
    color0 block = rd block 0 + 256 * rd block 1 := by
  have h0 := rd_lt block hb 0
  have h1 := rd_lt block hb 1
  unfold color0 u16
  rw [or_shl _ _ 8 (by omega)]
  omega

theorem color1_eq (block : List Nat) (hb : IsBytes block) :
    color1 block = rd block 2 + 256 * rd block 3 := by
  have h0 := rd_lt block hb 2
  have h1 := rd_lt block hb 3
  unfold color1 u16
  rw [or_shl _ _ 8 (by omega)]
  omega

theorem color_bits_eq (block : List Nat) (hb : IsBytes block) :
    color_bits block
      = rd block 4 + 256 * rd block 5 + 65536 * rd block 6 + 16777216 * rd block 7 := by
  have h4 := rd_lt block hb 4
  have h5 := rd_lt block hb 5
  have h6 := rd_lt block hb 6
  have h7 := rd_lt block hb 7
  unfold color_bits u32
  rw [or_shl (rd block 4) _ 8 (by omega), or_shl _ (rd block 6) 16 (by omega),
    or_shl _ (rd block 7) 24 (by omega)]
  omega

theorem red_eq (c : Nat) : red c = ((c >>> 11) &&& 31) <<< 3 := by
  unfold red u8
  simp only [and_31, Nat.shiftLeft_eq]
  omega

theorem green_eq (c : Nat) : green c = ((c >>> 5) &&& 63) <<< 2 := by
  unfold green u8
  simp only [and_63, Nat.shiftLeft_eq]
  omega

theorem blue_eq (c : Nat) : blue c = (c &&& 31) <<< 3 := by
  unfold blue u8
  simp only [and_31, Nat.shiftLeft_eq]
  omega

theorem red_lt (c : Nat) : red c < 256 := Nat.mod_lt _ (by norm_num)

theorem green_lt (c : Nat) : green c < 256 := Nat.mod_lt _ (by norm_num)

theorem blue_lt (c : Nat) : blue c < 256 := Nat.mod_lt _ (by norm_num)

theorem u8_third (a b : Nat) (ha : a < 256) (hb : b < 256) :
    u8 ((2 * a + b) / 3) = (2 * a + b) / 3 ∧ u8 ((a + 2 * b) / 3) = (a + 2 * b) / 3
      ∧ u8 ((a + b) / 2) = (a + b) / 2 := by
  unfold u8
  omega

/-! ## Stores and loops -/

theorem wr_nat (m : List Nat) (n v : Nat) : wr m (n : Int) v = m.set n v := by
  simp [wr]

theorem wr_nat_add (m : List Nat) (n k v : Nat) :
    wr m ((n : Int) + (k : Int)) v = m.set (n + k) v := by
  rw [← Nat.cast_add, wr_nat]

theorem length_wr (m : List Nat) (i : Int) (v : Nat) : (wr m i v).length = m.length := by
  unfold wr
  split <;> simp

theorem rd_set (m : List Nat) (a v n : Nat) :
    rd (m.set a v) n = if a = n ∧ a < m.length then v else rd m n := by
  unfold rd
  rw [List.getD_eq_getElem?_getD, List.getD_eq_getElem?_getD, List.getElem?_set]
  by_cases h : a = n
  · subst h
    by_cases h2 : a < m.length
    · simp [h2]
    · simp [h2, List.getElem?_eq_none (Nat.le_of_not_lt h2)]
  · simp [h]

/-- Four stores to consecutive bytes: what a later read sees. -/
theorem rd_set4 (m : List Nat) (b v0 v1 v2 v3 : Nat) (hb : b + 3 < m.length) (n : Nat) :
    rd ((((m.set b v0).set (b + 1) v1).set (b + 2) v2).set (b + 3) v3) n =
      if n = b then v0 else if n = b + 1 then v1 else if n = b + 2 then v2
      else if n = b + 3 then v3 else rd m n := by
  simp only [rd_set, List.length_set]
  split_ifs <;> first | rfl | omega

/-- An invariant of the loop body holds after the loop. -/
theorem foldl_inv {α β : Type} (f : β → α → β) (P : β → Prop) (l : List α) (b : β)
    (hb : P b) (hstep : ∀ m a, a ∈ l → P m → P (f m a)) : P (l.foldl f b) := by
  induction l generalizing b with
  | nil => exact hb
  | cons x xs ih =>
    rw [List.foldl_cons]
    exact ih (f b x) (hstep b x (List.mem_cons_self x xs) hb)
      (fun m a ha hm => hstep m a (List.mem_cons_of_mem x ha) hm)

/-- A property established by the iteration `a0` and kept by every iteration holds
after the loop; `Q` is an invariant all iterations may rely on. -/
theorem foldl_reach {α β : Type} (f : β → α → β) (Q P : β → Prop) (l : List α) (a0 : α)
    (h0 : a0 ∈ l) (b : β) (hQ : Q b)
    (hQstep : ∀ m a, a ∈ l → Q m → Q (f m a))
    (hStart : ∀ m, Q m → P (f m a0))
    (hKeep : ∀ m a, a ∈ l → Q m → P m → P (f m a)) : P (l.foldl f b) := by
  induction l generalizing b with
  | nil => cases h0
  | cons x xs ih =>
    rw [List.foldl_cons]
    rcases List.mem_cons.mp h0 with h | h
    · subst h
      have hboth : Q (xs.foldl f (f b a0)) ∧ P (xs.foldl f (f b a0)) :=
        foldl_inv f (fun m => Q m ∧ P m) xs (f b a0)
          ⟨hQstep b a0 (List.mem_cons_self a0 xs) hQ, hStart b hQ⟩
          (fun m a ha hm =>
            ⟨hQstep m a (List.mem_cons_of_mem a0 ha) hm.1,
             hKeep m a (List.mem_cons_of_mem a0 ha) hm.1 hm.2⟩)
      exact hboth.2
    · exact ih h (f b x) (hQstep b x (List.mem_cons_self x xs) hQ)
        (fun m a ha hm => hQstep m a (List.mem_cons_of_mem x ha) hm)
        (fun m a ha hq hp => hKeep m a (List.mem_cons_of_mem x ha) hq hp)

/-! ## The pixel loop of `dxt1_to_rgba` -/

theorem dxt1_pixel_eq (block m : List Nat) (j : Nat) :
    dxt1_pixel block m j =
      (((m.set (j * 4) (rd2 (colors block) (color_idx block j) 0)).set (j * 4 + 1)
        (rd2 (colors block) (color_idx block j) 1)).set (j * 4 + 2)
        (rd2 (colors block) (color_idx block j) 2)).set (j * 4 + 3)
        (rd2 (colors block) (color_idx block j) 3) := by
  unfold dxt1_pixel
  simp only [wr_nat, Nat.add_zero]

theorem length_dxt1_pixel (block m : List Nat) (j : Nat) :
    (dxt1_pixel block m j).length = m.length := by
  rw [dxt1_pixel_eq]
  simp only [List.length_set]

theorem length_dxt1 (block rgba : List Nat) :
    (dxt1_to_rgba block rgba).length = rgba.length := by
  unfold dxt1_to_rgba
  exact foldl_inv (dxt1_pixel block) (fun m => m.length = rgba.length) _ rgba rfl
    (fun m a _ hm => (length_dxt1_pixel block m a).trans hm)

/-- Byte `k` of output pixel `i` of `dxt1_to_rgba` is `colors[color_idx][k]`. -/
theorem dxt1_byte (block rgba : List Nat) (hlen : rgba.length = 64) (i k : Nat)
    (hi : i < 16) (hk : k < 4) :
    rd (dxt1_to_rgba block rgba) (i * 4 + k) = rd2 (colors block) (color_idx block i) k := by
  unfold dxt1_to_rgba
  refine foldl_reach (dxt1_pixel block) (fun m => m.length = 64)
    (fun m => rd m (i * 4 + k) = rd2 (colors block) (color_idx block i) k)
    (List.range 16) i (List.mem_range.mpr hi) rgba hlen ?_ ?_ ?_
  · intro m a _ hm
    exact (length_dxt1_pixel block m a).trans hm
  · intro m hm
    show rd (dxt1_pixel block m i) (i * 4 + k) = _
    rw [dxt1_pixel_eq, rd_set4 _ _ _ _ _ _ (by omega)]
    interval_cases k <;> simp
  · intro m a ha hm hp
    have ha16 : a < 16 := List.mem_range.mp ha
    show rd (dxt1_pixel block m a) (i * 4 + k) = _
    rw [dxt1_pixel_eq, rd_set4 _ _ _ _ _ _ (by omega)]
    by_cases hai : a = i
    · subst hai
      interval_cases k <;> simp
    · rw [if_neg (by omega), if_neg (by omega), if_neg (by omega), if_neg (by omega)]
      exact hp

theorem rd_eq_getElem (a : List Nat) (n : Nat) (h : n < a.length) : rd a n = a[n] := by
  simp [rd, List.getD_eq_getElem?_getD, h]

/-- Two 64-byte tiles with the same sixteen pixels are equal. -/
theorem tile_eq_of_pixels (a b : List Nat) (ha : a.length = 64) (hb : b.length = 64)
    (h : ∀ i, i < 16 → pixel a i = pixel b i) : a = b := by
  apply List.ext_getElem (by omega)
  intro n h1 h2
  have hp := h (n / 4) (by omega)
  simp only [pixel, List.cons.injEq, and_true] at hp
  rw [← rd_eq_getElem a n h1, ← rd_eq_getElem b n h2]
  have hn : n = 4 * (n / 4) ∨ n = 4 * (n / 4) + 1 ∨ n = 4 * (n / 4) + 2
      ∨ n = 4 * (n / 4) + 3 := by omega
  rcases hn with e | e | e | e
  · rw [e]; exact hp.1
  · rw [e]; exact hp.2.1
  · rw [e]; exact hp.2.2.1
  · rw [e]; exact hp.2.2.2

theorem le_value_4 (B : List Nat) :
    le_value B 4 = rd B 0 + 256 * rd B 1 + 65536 * rd B 2 + 16777216 * rd B 3 := by
  simp only [le_value, List.range_succ, List.range_zero, List.nil_append, List.map_append,
    List.map_cons, List.map_nil, List.sum_append, List.sum_cons, List.sum_nil,
    List.cons_append]
  omega

theorem color_idx_lt (block : List Nat) (i : Nat) : color_idx block i < 4 := by
  unfold color_idx u8
  rw [show (0x3 : Nat) = 3 from rfl, and_3]
  omega

theorem color_idx_eq (block : List Nat) (hb : IsBytes block) (i : Nat) :
    color_idx block i = (le_value (block.drop 4) 4 >>> (2 * i)) &&& 3 := by
  unfold color_idx u8
  rw [show (0x3 : Nat) = 3 from rfl, and_3, and_3, color_bits_eq block hb, le_value_4,
    rd_drop, rd_drop, rd_drop, rd_drop, Nat.mul_comm i 2]
  exact Nat.mod_eq_of_lt (Nat.lt_of_lt_of_le (Nat.mod_lt _ (by norm_num)) (by norm_num))

theorem slot_row (block : List Nat) (c : Nat) (hc : c < 4) :
    [rd2 (colors block) c 0, rd2 (colors block) c 1, rd2 (colors block) c 2,
      rd2 (colors block) c 3] = slot block c := by
  unfold slot rd2 colors
  split <;> interval_cases c <;> rfl

/-- Output pixel `i` of `dxt1_to_rgba` is the palette slot `color_idx`. -/
theorem dxt1_pixel_slot (block rgba : List Nat) (hlen : rgba.length = 64) (i : Nat)
    (hi : i < 16) : pixel (dxt1_to_rgba block rgba) i = slot block (color_idx block i) := by
  rw [← slot_row block _ (color_idx_lt block i)]
  unfold pixel
  have e0 := dxt1_byte block rgba hlen i 0 hi (by omega)
  have e1 := dxt1_byte block rgba hlen i 1 hi (by omega)
  have e2 := dxt1_byte block rgba hlen i 2 hi (by omega)
  have e3 := dxt1_byte block rgba hlen i 3 hi (by omega)
  rw [Nat.mul_comm 4 i, ← e0, ← e1, ← e2, ← e3]
  rfl

/-- The tile written by `dxt1_to_rgba` does not depend on the previous content of
the scratch buffer. -/
theorem dxt1_scratch (block rgba rgba2 : List Nat) (h1 : rgba.length = 64)
    (h2 : rgba2.length = 64) : dxt1_to_rgba block rgba = dxt1_to_rgba block rgba2 := by
  apply tile_eq_of_pixels _ _ (by rw [length_dxt1]; exact h1) (by rw [length_dxt1]; exact h2)
  intro i hi
  rw [dxt1_pixel_slot block rgba h1 i hi, dxt1_pixel_slot block rgba2 h2 i hi]

/-! ## The alpha loops of `dxt3_to_rgba` and `dxt5_to_rgba` -/

/-- The loop that overrides the alpha byte of each pixel with `f i`: what a read of
byte `n` sees afterwards. -/
theorem alpha_loop_rd (f : Nat → Nat) (m : List Nat) (hm : m.length = 64) (n : Nat)
    (hn : n < 64) :
    rd ((List.range 16).foldl (fun px i => wr px ((i * 4 + 3 : Nat) : Int) (f i)) m) n
      = if n % 4 = 3 then f (n / 4) else rd m n := by
  by_cases h : n % 4 = 3
  · rw [if_pos h]
    refine foldl_reach (fun px i => wr px ((i * 4 + 3 : Nat) : Int) (f i))
      (fun px => px.length = 64) (fun px => rd px n = f (n / 4)) (List.range 16) (n / 4)
      (List.mem_range.mpr (by omega)) m hm ?_ ?_ ?_
    · intro px _ _ hpx
      exact (length_wr px _ _).trans hpx
    · intro px hpx
      show rd (wr px ((n / 4 * 4 + 3 : Nat) : Int) (f (n / 4))) n = _
      rw [wr_nat, rd_set, if_pos ⟨by omega, by omega⟩]
    · intro px a ha hpx hp
      show rd (wr px ((a * 4 + 3 : Nat) : Int) (f a)) n = _
      rw [wr_nat, rd_set]
      by_cases hai : a * 4 + 3 = n
      · have : a = n / 4 := by omega
        rw [if_pos ⟨hai, by omega⟩, this]
      · rw [if_neg (fun hh => hai hh.1)]
        exact hp
  · rw [if_neg h]
    have hboth := foldl_inv (fun px i => wr px ((i * 4 + 3 : Nat) : Int) (f i))
      (fun px => rd px n = rd m n) (List.range 16) m rfl
      (fun px a _ hp => by
        show rd (wr px ((a * 4 + 3 : Nat) : Int) (f a)) n = rd m n
        rw [wr_nat, rd_set, if_neg (fun hh => h (by omega))]
        exact hp)
    exact hboth

theorem alpha_loop_length (f : Nat → Nat) (m : List Nat) :
    ((List.range 16).foldl (fun px i => wr px ((i * 4 + 3 : Nat) : Int) (f i)) m).length
      = m.length :=
  foldl_inv (fun px i => wr px ((i * 4 + 3 : Nat) : Int) (f i))
    (fun px => px.length = m.length) (List.range 16) m rfl
    (fun px _ _ hp => (length_wr px _ _).trans hp)

theorem length_dxt3 (block rgba : List Nat) : (dxt3_to_rgba block rgba).length = rgba.length := by
  unfold dxt3_to_rgba
  rw [alpha_loop_length (dxt3_alpha block), length_dxt1]

theorem length_dxt5 (block rgba : List Nat) : (dxt5_to_rgba block rgba).length = rgba.length := by
  unfold dxt5_to_rgba
  rw [alpha_loop_length (fun i => rd (alpha_table block) (alpha_index block i)), length_dxt1]

/-- Byte `n` of the tile written by `dxt3_to_rgba`. -/
theorem dxt3_rd (block rgba : List Nat) (hlen : rgba.length = 64) (n : Nat) (hn : n < 64) :
    rd (dxt3_to_rgba block rgba) n
      = if n % 4 = 3 then dxt3_alpha block (n / 4)
        else rd (dxt1_to_rgba (block.drop 8) rgba) n := by
  unfold dxt3_to_rgba
  exact alpha_loop_rd (dxt3_alpha block) _ ((length_dxt1 _ _).trans hlen) n hn

/-- Byte `n` of the tile written by `dxt5_to_rgba`. -/
theorem dxt5_rd (block rgba : List Nat) (hlen : rgba.length = 64) (n : Nat) (hn : n < 64) :
    rd (dxt5_to_rgba block rgba) n
      = if n % 4 = 3 then rd (alpha_table block) (alpha_index block (n / 4))
        else rd (dxt1_to_rgba (block.drop 8) rgba) n := by
  unfold dxt5_to_rgba
  exact alpha_loop_rd (fun i => rd (alpha_table block) (alpha_index block i)) _
    ((length_dxt1 _ _).trans hlen) n hn

theorem dxt3_scratch (block rgba rgba2 : List Nat) (h1 : rgba.length = 64)
    (h2 : rgba2.length = 64) : dxt3_to_rgba block rgba = dxt3_to_rgba block rgba2 := by
  unfold dxt3_to_rgba
  rw [dxt1_scratch (block.drop 8) rgba rgba2 h1 h2]

theorem dxt5_scratch (block rgba rgba2 : List Nat) (h1 : rgba.length = 64)
    (h2 : rgba2.length = 64) : dxt5_to_rgba block rgba = dxt5_to_rgba block rgba2 := by
  unfold dxt5_to_rgba
  rw [dxt1_scratch (block.drop 8) rgba rgba2 h1 h2]

theorem memcpy_le_8 (B : List Nat) :
    memcpy_le B 8 = rd B 0 + 256 * rd B 1 + 65536 * rd B 2 + 16777216 * rd B 3
      + 4294967296 * rd B 4 + 1099511627776 * rd B 5 + 281474976710656 * rd B 6
      + 72057594037927936 * rd B 7 := by
  simp only [memcpy_le, List.drop_drop, rd_drop, Nat.add_zero, Nat.reduceAdd]
  omega

theorem le_value_8 (B : List Nat) :
    le_value B 8 = rd B 0 + 256 * rd B 1 + 65536 * rd B 2 + 16777216 * rd B 3
      + 4294967296 * rd B 4 + 1099511627776 * rd B 5 + 281474976710656 * rd B 6
      + 72057594037927936 * rd B 7 := by
  simp only [le_value, List.range_succ, List.range_zero, List.nil_append, List.map_append,
    List.map_cons, List.map_nil, List.sum_append, List.sum_cons, List.sum_nil,
    List.cons_append]
  omega

/-! ## The palette of a colour block -/

/-- C2: for every colour block of bytes, with `c0` and `c1` the little-endian values
of bytes 0..1 and 2..3, palette slots 0 and 1 of `dxt1_to_rgba` are the 5/6/5 fields
shifted left by 3/2/3 (their low bits are zero); when `c0 > c1` slots 2 and 3 are
`(2*s0 + s1)/3` and `(s0 + 2*s1)/3` componentwise with truncating division, otherwise
slot 2 is `(s0 + s1)/2` and slot 3 is black. -/
theorem dxt1_palette (block : List Nat) (hb : IsBytes block) :
    let c0 := rd block 0 + 256 * rd block 1
    let c1 := rd block 2 + 256 * rd block 3
    let r0 := ((c0 >>> 11) &&& 31) <<< 3
    let g0 := ((c0 >>> 5) &&& 63) <<< 2
    let b0 := (c0 &&& 31) <<< 3
    let r1 := ((c1 >>> 11) &&& 31) <<< 3
    let g1 := ((c1 >>> 5) &&& 63) <<< 2
    let b1 := (c1 &&& 31) <<< 3
    (slot block 0).take 3 = [r0, g0, b0] ∧ (slot block 1).take 3 = [r1, g1, b1]
    ∧ (r0 % 8 = 0 ∧ g0 % 4 = 0 ∧ b0 % 8 = 0 ∧ r1 % 8 = 0 ∧ g1 % 4 = 0 ∧ b1 % 8 = 0)
    ∧ (c0 > c1 →
        (slot block 2).take 3 = [(2 * r0 + r1) / 3, (2 * g0 + g1) / 3, (2 * b0 + b1) / 3]
        ∧ (slot block 3).take 3 = [(r0 + 2 * r1) / 3, (g0 + 2 * g1) / 3, (b0 + 2 * b1) / 3])
    ∧ (c0 ≤ c1 →
        (slot block 2).take 3 = [(r0 + r1) / 2, (g0 + g1) / 2, (b0 + b1) / 2]
        ∧ (slot block 3).take 3 = [0, 0, 0]) := by
  intro c0 c1 r0 g0 b0 r1 g1 b1
  have hc0 : color0 block = c0 := color0_eq block hb
  have hc1 : color1 block = c1 := color1_eq block hb
  have hr0 : red c0 = r0 := red_eq c0
  have hg0 : green c0 = g0 := green_eq c0
  have hb0 : blue c0 = b0 := blue_eq c0
  have hr1 : red c1 = r1 := red_eq c1
  have hg1 : green c1 = g1 := green_eq c1
  have hb1 : blue c1 = b1 := blue_eq c1
  have tr := u8_third r0 r1 (hr0 ▸ red_lt c0) (hr1 ▸ red_lt c1)
  have tg := u8_third g0 g1 (hg0 ▸ green_lt c0) (hg1 ▸ green_lt c1)
  have tb := u8_third b0 b1 (hb0 ▸ blue_lt c0) (hb1 ▸ blue_lt c1)
  have low : r0 % 8 = 0 ∧ g0 % 4 = 0 ∧ b0 % 8 = 0 ∧ r1 % 8 = 0 ∧ g1 % 4 = 0 ∧ b1 % 8 = 0 := by
    simp only [r0, g0, b0, r1, g1, b1, Nat.shiftLeft_eq]
    omega
  have hcol : colors block =
      if c0 > c1 then
        [[r0, g0, b0, 255], [r1, g1, b1, 255],
         [(2 * r0 + r1) / 3, (2 * g0 + g1) / 3, (2 * b0 + b1) / 3, 255],
         [(r0 + 2 * r1) / 3, (g0 + 2 * g1) / 3, (b0 + 2 * b1) / 3, 255]]
      else
        [[r0, g0, b0, 255], [r1, g1, b1, 255],
         [(r0 + r1) / 2, (g0 + g1) / 2, (b0 + b1) / 2, 255], [0, 0, 0, 0]] := by
    unfold colors
    simp only [hc0, hc1, hr0, hg0, hb0, hr1, hg1, hb1, tr.1, tr.2.1, tr.2.2, tg.1, tg.2.1,
      tg.2.2, tb.1, tb.2.1, tb.2.2]
  unfold slot
  rw [hcol]
  refine ⟨?_, ?_, low, ?_, ?_⟩
  · split <;> rfl
  · split <;> rfl
  · intro h
    rw [if_pos h]
    exact ⟨rfl, rfl⟩
  · intro h
    rw [if_neg (by omega)]
    exact ⟨rfl, rfl⟩

/-- Witness of `dxt1_palette`: the block `00 F8 1F 00 00 00 00 00` (red and blue
endpoints, four-colour mode). -/
theorem dxt1_palette_witness :
    (slot [0, 0xF8, 0x1F, 0, 0, 0, 0, 0] 0).take 3 = [248, 0, 0]
    ∧ (slot [0, 0xF8, 0x1F, 0, 0, 0, 0, 0] 1).take 3 = [0, 0, 248]
    ∧ (slot [0, 0xF8, 0x1F, 0, 0, 0, 0, 0] 2).take 3 = [165, 0, 82]
    ∧ (slot [0, 0xF8, 0x1F, 0, 0, 0, 0, 0] 3).take 3 = [82, 0, 165] := by
  have h := dxt1_palette [0, 0xF8, 0x1F, 0, 0, 0, 0, 0] (by decide)
  exact ⟨h.1, h.2.1, (h.2.2.2.1 (by decide)).1, (h.2.2.2.1 (by decide)).2⟩

/-! ## The pixels of a colour block -/

/-- C3: for every colour block of bytes, any scratch tile and every pixel `i < 16`,
output pixel `i` of `dxt1_to_rgba` (bytes `4i..4i+3`) is palette slot
`(w >> 2i) & 3`, with `w` the little-endian 32-bit word of bytes 4..7; hence when
bytes 4..7 are zero every pixel is the expanded `c0` with alpha 255, and the block
`00 F8 00 F8 00 00 00 00` decodes to sixteen pixels `(248, 0, 0, 255)`. -/
theorem dxt1_pixel_index (block rgba : List Nat) (hb : IsBytes block)
    (hlen : rgba.length = 64) :
    let w := le_value (block.drop 4) 4
    let c0 := rd block 0 + 256 * rd block 1
    (∀ i, i < 16 → pixel (dxt1_to_rgba block rgba) i = slot block ((w >>> (2 * i)) &&& 3))
    ∧ (rd block 4 = 0 → rd block 5 = 0 → rd block 6 = 0 → rd block 7 = 0 →
        ∀ i, i < 16 → pixel (dxt1_to_rgba block rgba) i
          = [((c0 >>> 11) &&& 31) <<< 3, ((c0 >>> 5) &&& 63) <<< 2, (c0 &&& 31) <<< 3, 255])
    ∧ dxt1_to_rgba [0x00, 0xF8, 0x00, 0xF8, 0x00, 0x00, 0x00, 0x00] rgba
        = (List.replicate 16 [248, 0, 0, 255]).flatten := by
  intro w c0
  have hpix : ∀ i, i < 16 →
      pixel (dxt1_to_rgba block rgba) i = slot block ((w >>> (2 * i)) &&& 3) := by
    intro i hi
    rw [dxt1_pixel_slot block rgba hlen i hi, color_idx_eq block hb i]
  refine ⟨hpix, ?_, ?_⟩
  · intro h4 h5 h6 h7 i hi
    have hw : w = 0 := by
      show le_value (block.drop 4) 4 = 0
      rw [le_value_4, rd_drop, rd_drop, rd_drop, rd_drop, h4, h5, h6, h7]
    have hidx : (w >>> (2 * i)) &&& 3 = 0 := by
      rw [hw, Nat.zero_shiftRight, Nat.zero_and]
    rw [hpix i hi, hidx]
    have hs : slot block 0 = [red (color0 block), green (color0 block),
        blue (color0 block), 255] := by
      unfold slot colors
      split <;> rfl
    rw [hs, color0_eq block hb, red_eq, green_eq, blue_eq]
  · rw [dxt1_scratch _ rgba (List.replicate 64 0) hlen (by simp)]
    decide

/-- Witness of `dxt1_pixel_index`: pixel 13 of the block `00 F8 1F 00 1B 1B 1B 1B`
has index `(w >> 26) & 3 = 2`. -/
theorem dxt1_pixel_index_witness :
    pixel (dxt1_to_rgba [0x00, 0xF8, 0x1F, 0x00, 0x1B, 0x1B, 0x1B, 0x1B]
        (List.replicate 64 0xAA)) 13
      = slot [0x00, 0xF8, 0x1F, 0x00, 0x1B, 0x1B, 0x1B, 0x1B]
          ((le_value ([0x00, 0xF8, 0x1F, 0x00, 0x1B, 0x1B, 0x1B, 0x1B].drop 4) 4 >>> (2 * 13))
            &&& 3) :=
  (dxt1_pixel_index [0x00, 0xF8, 0x1F, 0x00, 0x1B, 0x1B, 0x1B, 0x1B] (List.replicate 64 0xAA)
    (by decide) (by decide)).1 13 (by decide)

/-- C4: for every colour block of bytes with `c0 > c1` the four palette entries have
alpha 255, so all sixteen output pixels of `dxt1_to_rgba` have alpha 255; with
`c0 <= c1` slot 3 is `(0,0,0,0)` and slots 0..2 have alpha 255, so a pixel of index 3
is `(0,0,0,0)` and every other pixel has alpha 255; the block
`00 00 FF FF 00 00 00 FF` gives pixels 0..11 `(0,0,0,255)` and 12..15 `(0,0,0,0)`. -/
theorem dxt1_alpha (block rgba : List Nat) (hb : IsBytes block) (hlen : rgba.length = 64) :
    let w := le_value (block.drop 4) 4
    let c0 := rd block 0 + 256 * rd block 1
    let c1 := rd block 2 + 256 * rd block 3
    (c0 > c1 →
      (∀ k, k < 4 → rd (slot block k) 3 = 255)
      ∧ ∀ i, i < 16 → rd (dxt1_to_rgba block rgba) (4 * i + 3) = 255)
    ∧ (c0 ≤ c1 →
      slot block 3 = [0, 0, 0, 0] ∧ (∀ k, k < 3 → rd (slot block k) 3 = 255)
      ∧ ∀ i, i < 16 →
        ((w >>> (2 * i)) &&& 3 = 3 → pixel (dxt1_to_rgba block rgba) i = [0, 0, 0, 0])
        ∧ ((w >>> (2 * i)) &&& 3 ≠ 3 → rd (dxt1_to_rgba block rgba) (4 * i + 3) = 255))
    ∧ dxt1_to_rgba [0x00, 0x00, 0xFF, 0xFF, 0x00, 0x00, 0x00, 0xFF] rgba
        = (List.replicate 12 [0, 0, 0, 255]).flatten ++ (List.replicate 4 [0, 0, 0, 0]).flatten := by
  intro w c0 c1
  have hc0 : color0 block = c0 := color0_eq block hb
  have hc1 : color1 block = c1 := color1_eq block hb
  have halpha : ∀ i, i < 16 → rd (dxt1_to_rgba block rgba) (4 * i + 3)
      = rd (slot block ((w >>> (2 * i)) &&& 3)) 3 := by
    intro i hi
    rw [Nat.mul_comm 4 i, dxt1_byte block rgba hlen i 3 hi (by omega), color_idx_eq block hb i]
    rfl
  have hidx : ∀ i, (w >>> (2 * i)) &&& 3 < 4 := by
    intro i
    rw [and_3]
    omega
  refine ⟨?_, ?_, ?_⟩
  · intro h
    have hs : ∀ k, k < 4 → rd (slot block k) 3 = 255 := by
      intro k hk
      unfold slot colors
      rw [hc0, hc1, if_pos h]
      interval_cases k <;> rfl
    exact ⟨hs, fun i hi => (halpha i hi).trans (hs _ (hidx i))⟩
  · intro h
    have hn : ¬ c0 > c1 := by omega
    have hs3 : slot block 3 = [0, 0, 0, 0] := by
      unfold slot colors
      rw [hc0, hc1, if_neg hn]
      rfl
    have hs : ∀ k, k < 3 → rd (slot block k) 3 = 255 := by
      intro k hk
      unfold slot colors
      rw [hc0, hc1, if_neg hn]
      interval_cases k <;> rfl
    refine ⟨hs3, hs, ?_⟩
    intro i hi
    constructor
    · intro h3
      rw [dxt1_pixel_slot block rgba hlen i hi, color_idx_eq block hb i]
      show slot block ((w >>> (2 * i)) &&& 3) = _
      rw [h3, hs3]
    · intro h3
      have := hidx i
      exact (halpha i hi).trans (hs _ (by omega))
  · rw [dxt1_scratch _ rgba (List.replicate 64 0) hlen (by simp)]
    decide

/-- Witness of `dxt1_alpha`: the three-colour block `00 00 FF FF 00 00 00 FF`, whose
pixel 12 has index 3 and whose pixel 0 has index 0. -/
theorem dxt1_alpha_witness :
    pixel (dxt1_to_rgba [0x00, 0x00, 0xFF, 0xFF, 0x00, 0x00, 0x00, 0xFF]
        (List.replicate 64 0xAA)) 12 = [0, 0, 0, 0]
    ∧ rd (dxt1_to_rgba [0x00, 0x00, 0xFF, 0xFF, 0x00, 0x00, 0x00, 0xFF]
        (List.replicate 64 0xAA)) (4 * 0 + 3) = 255 :=
  ⟨(((dxt1_alpha [0x00, 0x00, 0xFF, 0xFF, 0x00, 0x00, 0x00, 0xFF] (List.replicate 64 0xAA)
      (by decide) (by decide)).2.1 (by decide)).2.2 12 (by decide)).1 (by decide),
   (((dxt1_alpha [0x00, 0x00, 0xFF, 0xFF, 0x00, 0x00, 0x00, 0xFF] (List.replicate 64 0xAA)
      (by decide) (by decide)).2.1 (by decide)).2.2 0 (by decide)).2 (by decide)⟩

/-! ## The alpha table of a DXT5 block -/

/-- C6: for every DXT5 block of bytes with `a0` = byte 0 and `a1` = byte 1, the table
of `dxt5_to_rgba` has `A[0] = a0`, `A[1] = a1`; when `a0 > a1`,
`A[k] = ((8-k)*a0 + (k-1)*a1) / 7` for `k` in `[2,8)`; otherwise
`A[k] = ((6-k)*a0 + (k-1)*a1) / 5` for `k` in `[2,6)`, `A[6] = 0` and `A[7] = 255`. -/
theorem dxt5_alpha_table (block : List Nat) (hb : IsBytes block) :
    let a0 := rd block 0
    let a1 := rd block 1
    rd (alpha_table block) 0 = a0 ∧ rd (alpha_table block) 1 = a1
    ∧ (a0 > a1 → ∀ k, 2 ≤ k → k < 8 →
        rd (alpha_table block) k = ((8 - k) * a0 + (k - 1) * a1) / 7)
    ∧ (a0 ≤ a1 →
        (∀ k, 2 ≤ k → k < 6 → rd (alpha_table block) k = ((6 - k) * a0 + (k - 1) * a1) / 5)
        ∧ rd (alpha_table block) 6 = 0 ∧ rd (alpha_table block) 7 = 255) := by
  intro a0 a1
  have h0 : a0 < 256 := rd_lt block hb 0
  have h1 : a1 < 256 := rd_lt block hb 1
  have htab : alpha_table block =
      if a0 > a1 then
        [a0, a1, u8 ((6 * a0 + 1 * a1) / 7), u8 ((5 * a0 + 2 * a1) / 7),
         u8 ((4 * a0 + 3 * a1) / 7), u8 ((3 * a0 + 4 * a1) / 7),
         u8 ((2 * a0 + 5 * a1) / 7), u8 ((1 * a0 + 6 * a1) / 7)]
      else
        [a0, a1, u8 ((4 * a0 + 1 * a1) / 5), u8 ((3 * a0 + 2 * a1) / 5),
         u8 ((2 * a0 + 3 * a1) / 5), u8 ((1 * a0 + 4 * a1) / 5), 0, 255] := rfl
  rw [htab]
  clear_value a0 a1
  refine ⟨?_, ?_, ?_, ?_⟩
  · split <;> rfl
  · split <;> rfl
  · intro h k hk2 hk8
    rw [if_pos h]
    interval_cases k <;> simp only [rd_cons_succ, rd_cons_zero, u8, Nat.reduceSub] <;> omega
  · intro h
    rw [if_neg (by omega)]
    refine ⟨?_, rfl, rfl⟩
    intro k hk2 hk6
    interval_cases k <;> simp only [rd_cons_succ, rd_cons_zero, u8, Nat.reduceSub] <;> omega

/-- Witness of `dxt5_alpha_table`: endpoints `a0 = 200 > a1 = 60`, entry `A[4]`. -/
theorem dxt5_alpha_table_witness :
    rd (alpha_table [200, 60, 0, 0, 0, 0, 0, 0, 0, 0, 0, 0, 0, 0, 0, 0]) 4
      = ((8 - 4) * 200 + (4 - 1) * 60) / 7 :=
  (dxt5_alpha_table [200, 60, 0, 0, 0, 0, 0, 0, 0, 0, 0, 0, 0, 0, 0, 0] (by decide)).2.2.1
    (by decide) 4 (by decide) (by decide)

/-- C7, as stated, fails: with `a0 = 0xFF` and `a1 = 0x00` the entries `A[2..7]` are
not `218, 182, 146, 109, 73, 36` (the code truncates `4*255/7` to 145 and `2*255/7`
to 72). -/
theorem dxt5_ramp_not_as_claimed :
    (alpha_table [0xFF, 0x00, 0, 0, 0, 0, 0, 0, 0, 0, 0, 0, 0, 0, 0, 0]).drop 2
      ≠ [218, 182, 146, 109, 73, 36] := by
  decide

/-- C7, amended: for every DXT5 block with `a0 = 0xFF` and `a1 = 0x00`, the entries
`A[2], ..., A[7]` are exactly `218, 182, 145, 109, 72, 36`. -/
theorem dxt5_ramp (block : List Nat) (h0 : rd block 0 = 0xFF) (h1 : rd block 1 = 0x00) :
    (alpha_table block).drop 2 = [218, 182, 145, 109, 72, 36] := by
  unfold alpha_table
  simp only [h0, h1]
  decide

/-- Witness of `dxt5_ramp`: a block with endpoints `FF 00`. -/
theorem dxt5_ramp_witness :
    (alpha_table [0xFF, 0x00, 0x88, 0xC6, 0xFA, 0x88, 0xC6, 0xFA, 0, 0xF8, 0, 0xF8, 0, 0, 0, 0]).drop 2
      = [218, 182, 145, 109, 72, 36] :=
  dxt5_ramp [0xFF, 0x00, 0x88, 0xC6, 0xFA, 0x88, 0xC6, 0xFA, 0, 0xF8, 0, 0xF8, 0, 0, 0, 0]
    (by decide) (by decide)

/-! ## Explicit alpha of DXT3 -/

theorem dxt3_alpha_eq (block : List Nat) (hb : IsBytes block) (i : Nat) :
    dxt3_alpha block i
      = ((((le_value block 8 >>> (4 * i)) &&& 15) <<< 4)
          ||| ((le_value block 8 >>> (4 * i)) &&& 15)) := by
  have h0 := rd_lt block hb 0
  have h1 := rd_lt block hb 1
  have h2 := rd_lt block hb 2
  have h3 := rd_lt block hb 3
  have h4 := rd_lt block hb 4
  have h5 := rd_lt block hb 5
  have h6 := rd_lt block hb 6
  have h7 := rd_lt block hb 7
  have hm : u64 (memcpy_le block 8) = le_value block 8 := by
    rw [memcpy_le_8, le_value_8]
    unfold u64
    omega
  unfold dxt3_alpha
  simp only [hm, Nat.mul_comm i 4]
  rw [show (0xF : Nat) = 15 from rfl]
  have hn : (le_value block 8 >>> (4 * i)) &&& 15 < 16 := by
    rw [and_15]
    omega
  generalize (le_value block 8 >>> (4 * i)) &&& 15 = n at hn ⊢
  rw [Nat.lor_comm, or_shl n n 4 (by omega)]
  unfold u8
  omega

/-- C5: for every DXT3 block of bytes, any scratch tile and every pixel `i < 16`, the
alpha byte of output pixel `i` of `dxt3_to_rgba` is `(n << 4) | n` with `n` the bits
`[4i, 4i+4)` of the little-endian 64-bit value of bytes 0..7, that is the low nibble of
byte `i/2` for even `i` and its high nibble for odd `i`; alpha bytes `88` x 8 followed
by the colour block `00 F8 00 F8 00 00 00 00` give sixteen pixels `(248, 0, 0, 0x88)`. -/
theorem dxt3_alpha_nibble (block rgba : List Nat) (hb : IsBytes block)
    (hlen : rgba.length = 64) :
    (∀ i, i < 16 →
      rd (dxt3_to_rgba block rgba) (4 * i + 3)
        = ((((le_value block 8 >>> (4 * i)) &&& 15) <<< 4)
            ||| ((le_value block 8 >>> (4 * i)) &&& 15))
      ∧ (le_value block 8 >>> (4 * i)) &&& 15
        = if i % 2 = 0 then rd block (i / 2) % 16 else rd block (i / 2) / 16)
    ∧ dxt3_to_rgba [0x88, 0x88, 0x88, 0x88, 0x88, 0x88, 0x88, 0x88,
          0x00, 0xF8, 0x00, 0xF8, 0x00, 0x00, 0x00, 0x00] rgba
        = (List.replicate 16 [248, 0, 0, 0x88]).flatten := by
  refine ⟨?_, ?_⟩
  · intro i hi
    constructor
    · rw [dxt3_rd block rgba hlen (4 * i + 3) (by omega), if_pos (by omega),
        show (4 * i + 3) / 4 = i by omega]
      exact dxt3_alpha_eq block hb i
    · have h0 := rd_lt block hb 0
      have h1 := rd_lt block hb 1
      have h2 := rd_lt block hb 2
      have h3 := rd_lt block hb 3
      have h4 := rd_lt block hb 4
      have h5 := rd_lt block hb 5
      have h6 := rd_lt block hb 6
      have h7 := rd_lt block hb 7
      rw [le_value_8, and_15, Nat.shiftRight_eq_div_pow]
      interval_cases i <;> simp only [Nat.reduceMul, Nat.reducePow, Nat.reduceMod,
        Nat.reduceDiv, if_true, if_false, Nat.reduceEqDiff, Nat.div_one] <;> omega
  · rw [dxt3_scratch _ rgba (List.replicate 64 0) hlen (by simp)]
    decide

/-- Witness of `dxt3_alpha_nibble`: pixel 5 (high nibble of byte 2) of a block with
alpha bytes `10 32 54 76 98 BA DC FE`. -/
theorem dxt3_alpha_nibble_witness :
    rd (dxt3_to_rgba [0x10, 0x32, 0x54, 0x76, 0x98, 0xBA, 0xDC, 0xFE,
        0x00, 0xF8, 0x00, 0xF8, 0x00, 0x00, 0x00, 0x00] (List.replicate 64 0xAA)) (4 * 5 + 3)
      = ((((le_value [0x10, 0x32, 0x54, 0x76, 0x98, 0xBA, 0xDC, 0xFE,
        0x00, 0xF8, 0x00, 0xF8, 0x00, 0x00, 0x00, 0x00] 8 >>> (4 * 5)) &&& 15) <<< 4)
          ||| ((le_value [0x10, 0x32, 0x54, 0x76, 0x98, 0xBA, 0xDC, 0xFE,
        0x00, 0xF8, 0x00, 0xF8, 0x00, 0x00, 0x00, 0x00] 8 >>> (4 * 5)) &&& 15)) :=
  ((dxt3_alpha_nibble [0x10, 0x32, 0x54, 0x76, 0x98, 0xBA, 0xDC, 0xFE,
      0x00, 0xF8, 0x00, 0xF8, 0x00, 0x00, 0x00, 0x00] (List.replicate 64 0xAA)
    (by decide) (by decide)).1 5 (by decide)).1

/-! ## Alpha indices of DXT5 -/

/-- The one-byte branch of `alpha_index` reads the 3-bit window. -/
theorem window_lo (b n off : Nat) (hb : b < 256) (hoff : off ≤ 5) :
    u8 ((b >>> off) &&& 0x07) = ((b ||| (n <<< 8)) >>> off) &&& 7 := by
  rw [or_shl b n 8 (by omega), show (0x07 : Nat) = 7 from rfl, and_7, and_7]
  unfold u8
  simp only [Nat.shiftRight_eq_div_pow]
  interval_cases off <;> simp only [Nat.reducePow, Nat.div_one] <;> omega

/-- The two-byte branch of `alpha_index` reads the 3-bit window. -/
theorem window_hi (b n off : Nat) (hb : b < 256) (hoff : off = 6 ∨ off = 7) :
    u8 ((b >>> off) ||| ((n &&& ((1 <<< (off - 5)) - 1)) <<< (8 - off)))
      = ((b ||| (n <<< 8)) >>> off) &&& 7 := by
  rw [or_shl b n 8 (by omega), and_7]
  unfold u8
  rcases hoff with h | h
  · subst h
    have h1 : b >>> 6 < 2 ^ 2 := by
      rw [Nat.shiftRight_eq_div_pow]
      omega
    rw [show (1 <<< (6 - 5)) - 1 = 1 from rfl, show 8 - 6 = 2 from rfl, or_shl _ _ 2 h1, and_1]
    simp only [Nat.shiftRight_eq_div_pow, Nat.reducePow]
    omega
  · subst h
    have h1 : b >>> 7 < 2 ^ 1 := by
      rw [Nat.shiftRight_eq_div_pow]
      omega
    rw [show (1 <<< (7 - 5)) - 1 = 3 from rfl, show 8 - 7 = 1 from rfl, or_shl _ _ 1 h1, and_3]
    simp only [Nat.shiftRight_eq_div_pow, Nat.reducePow]
    omega

theorem le_value_6 (B : List Nat) :
    le_value B 6 = rd B 0 + 256 * rd B 1 + 65536 * rd B 2 + 16777216 * rd B 3
      + 4294967296 * rd B 4 + 1099511627776 * rd B 5 := by
  simp only [le_value, List.range_succ, List.range_zero, List.nil_append, List.map_append,
    List.map_cons, List.map_nil, List.sum_append, List.sum_cons, List.sum_nil,
    List.cons_append]
  omega

/-- C8: for every DXT5 block of bytes and every pixel `i < 16`, the alpha index that
`dxt5_to_rgba` computes with its two branches equals the bit window of the
specification at `p = 3i`, `k = 3` over any byte array `B` that holds block bytes 2..7
in its first six entries, which is bits `[3i, 3i+3)` of the 48-bit little-endian value
of those bytes; and the alpha byte of output pixel `i` is `A[index]`. -/
theorem dxt5_alpha_index (block B rgba : List Nat) (hb : IsBytes block)
    (hB : ∀ j, j < 6 → rd B j = rd block (2 + j)) (hlen : rgba.length = 64)
    (i : Nat) (hi : i < 16) :
    alpha_index block i = bit_window B (3 * i) 3
    ∧ bit_window B (3 * i) 3 = (le_value B 6 >>> (3 * i)) &&& 7
    ∧ rd (dxt5_to_rgba block rgba) (4 * i + 3)
        = rd (alpha_table block) (alpha_index block i) := by
  have hbw : ∀ p, bit_window B p 3
      = ((rd B (p / 8) ||| (rd B (p / 8 + 1) <<< 8)) >>> (p % 8)) &&& 7 := fun _ => rfl
  refine ⟨?_, ?_, ?_⟩
  · rw [hbw, hB (3 * i / 8) (by omega)]
    unfold alpha_index
    simp only [Nat.mul_comm i 3]
    by_cases hoff : 3 * i % 8 > 5
    · rw [if_pos hoff, hB (3 * i / 8 + 1) (by omega), ← Nat.add_assoc]
      exact window_hi _ _ _ (rd_lt block hb _) (by omega)
    · rw [if_neg hoff]
      exact window_lo _ _ _ (rd_lt block hb _) (by omega)
  · have h0 : rd B 0 < 256 := by rw [hB 0 (by omega)]; exact rd_lt block hb _
    have h1 : rd B 1 < 256 := by rw [hB 1 (by omega)]; exact rd_lt block hb _
    have h2 : rd B 2 < 256 := by rw [hB 2 (by omega)]; exact rd_lt block hb _
    have h3 : rd B 3 < 256 := by rw [hB 3 (by omega)]; exact rd_lt block hb _
    have h4 : rd B 4 < 256 := by rw [hB 4 (by omega)]; exact rd_lt block hb _
    have h5 : rd B 5 < 256 := by rw [hB 5 (by omega)]; exact rd_lt block hb _
    rw [hbw, le_value_6, and_7, and_7]
    interval_cases i <;>
      simp only [Nat.reduceMul, Nat.reduceDiv, Nat.reduceMod, Nat.reduceAdd] <;>
      rw [or_shl _ _ 8 (by omega)] <;>
      simp only [Nat.shiftRight_eq_div_pow, Nat.reducePow, Nat.div_one] <;> omega
  · rw [dxt5_rd block rgba hlen (4 * i + 3) (by omega), if_pos (by omega),
      show (4 * i + 3) / 4 = i by omega]

/-- Witness of `dxt5_alpha_index`: pixel 5 (bit offset 15, the two-byte branch) of a
block with index bytes `88 C6 FA 88 C6 FA`, read through the pointer `block + 2`. -/
theorem dxt5_alpha_index_witness :
    alpha_index [0xFF, 0x00, 0x88, 0xC6, 0xFA, 0x88, 0xC6, 0xFA,
        0x00, 0xF8, 0x00, 0xF8, 0x00, 0x00, 0x00, 0x00] 5
      = bit_window ([0xFF, 0x00, 0x88, 0xC6, 0xFA, 0x88, 0xC6, 0xFA,
        0x00, 0xF8, 0x00, 0xF8, 0x00, 0x00, 0x00, 0x00].drop 2) (3 * 5) 3 :=
  (dxt5_alpha_index [0xFF, 0x00, 0x88, 0xC6, 0xFA, 0x88, 0xC6, 0xFA,
      0x00, 0xF8, 0x00, 0xF8, 0x00, 0x00, 0x00, 0x00]
    ([0xFF, 0x00, 0x88, 0xC6, 0xFA, 0x88, 0xC6, 0xFA,
      0x00, 0xF8, 0x00, 0xF8, 0x00, 0x00, 0x00, 0x00].drop 2) (List.replicate 64 0xAA)
    (by decide) (by decide) (by decide) 5 (by decide)).1

/-! ## The size of the decoded buffer -/

theorem length_copy_pixel (width height blk_x blk_y : Nat) (tile m : List Nat) (py px : Nat) :
    (copy_pixel width height blk_x blk_y tile m py px).length = m.length := by
  unfold copy_pixel
  simp only []
  split
  · rfl
  · simp only [length_wr]

theorem length_decode_tile (image_data : List Nat) (width height dxt_type : Nat)
    (stack : Nat → Nat) (blk_y : Nat) (m : List Nat) (blk_x : Nat) :
    (decode_tile image_data width height dxt_type stack blk_y m blk_x).length = m.length := by
  unfold decode_tile
  refine foldl_inv _ (fun img => img.length = m.length) _ m rfl ?_
  intro img py _ himg
  refine foldl_inv _ (fun img2 => img2.length = m.length) _ img himg ?_
  intro img2 px _ himg2
  exact (length_copy_pixel _ _ _ _ _ _ _ _).trans himg2

theorem length_decode_blocks (image_data : List Nat) (width height dxt_type : Nat)
    (stack : Nat → Nat) (m : List Nat) :
    (decode_blocks image_data width height dxt_type stack m).length = m.length := by
  unfold decode_blocks
  refine foldl_inv _ (fun img => img.length = m.length) _ m rfl ?_
  intro img blk_y _ himg
  refine foldl_inv _ (fun img2 => img2.length = m.length) _ img himg ?_
  intro img2 blk_x _ himg2
  exact (length_decode_tile _ _ _ _ _ _ _ _).trans himg2

/-- The buffer handed to the image writer has exactly the `malloc`ed size. -/
theorem length_decode_dxt_image (image_data : List Nat) (width height dxt_type : Nat)
    (g stack : Nat → Nat) :
    (decode_dxt_image image_data width height dxt_type (some g) stack).map List.length
      = some (decoded_size width height) := by
  simp [decode_dxt_image, length_decode_blocks]

/-- C9 fails on the code at `width = 32769`, `height = 32768` (both 32-bit values):
`total_pixels * 4` wraps to 131072, so the buffer that `decode_dxt_image` allocates
and hands to the image writer has 131072 bytes, not `4 * width * height = 4295098368`. -/
theorem decoded_size_wraps :
    decoded_size 32769 32768 = 131072
    ∧ 4 * 32769 * 32768 = 4295098368
    ∧ ∀ (image_data : List Nat) (dxt_type : Nat) (g stack : Nat → Nat),
        (decode_dxt_image image_data 32769 32768 dxt_type (some g) stack).map List.length
          = some 131072 := by
  refine ⟨by decide, by decide, ?_⟩
  intro image_data dxt_type g stack
  rw [length_decode_dxt_image]
  decide

/-! ## A block decoder reads only its block -/

theorem colors_congr (a b : List Nat) (h : ∀ j, j < 8 → rd a j = rd b j) :
    colors a = colors b := by
  have h0 : color0 a = color0 b := by
    unfold color0
    rw [h 0 (by omega), h 1 (by omega)]
  have h1 : color1 a = color1 b := by
    unfold color1
    rw [h 2 (by omega), h 3 (by omega)]
  unfold colors
  rw [h0, h1]

theorem color_idx_congr (a b : List Nat) (h : ∀ j, j < 8 → rd a j = rd b j) (i : Nat) :
    color_idx a i = color_idx b i := by
  unfold color_idx color_bits
  rw [h 4 (by omega), h 5 (by omega), h 6 (by omega), h 7 (by omega)]

theorem dxt1_congr (a b s : List Nat) (h : ∀ j, j < 8 → rd a j = rd b j) :
    dxt1_to_rgba a s = dxt1_to_rgba b s := by
  unfold dxt1_to_rgba
  apply List.foldl_ext
  intro m i _
  unfold dxt1_pixel
  rw [colors_congr a b h, color_idx_congr a b h i]

theorem dxt3_congr (a b s : List Nat) (h : ∀ j, j < 16 → rd a j = rd b j) :
    dxt3_to_rgba a s = dxt3_to_rgba b s := by
  unfold dxt3_to_rgba
  rw [dxt1_congr (a.drop 8) (b.drop 8) s
    (fun j hj => by rw [rd_drop, rd_drop]; exact h (8 + j) (by omega))]
  apply List.foldl_ext
  intro m i _
  unfold dxt3_alpha
  rw [memcpy_le_8, memcpy_le_8, h 0 (by omega), h 1 (by omega), h 2 (by omega),
    h 3 (by omega), h 4 (by omega), h 5 (by omega), h 6 (by omega), h 7 (by omega)]

theorem dxt5_congr (a b s : List Nat) (h : ∀ j, j < 16 → rd a j = rd b j) :
    dxt5_to_rgba a s = dxt5_to_rgba b s := by
  unfold dxt5_to_rgba
  rw [dxt1_congr (a.drop 8) (b.drop 8) s
    (fun j hj => by rw [rd_drop, rd_drop]; exact h (8 + j) (by omega))]
  apply List.foldl_ext
  intro m i hi
  have hi16 : i < 16 := List.mem_range.mp hi
  have htab : alpha_table a = alpha_table b := by
    unfold alpha_table
    rw [h 0 (by omega), h 1 (by omega)]
  have hidx : alpha_index a i = alpha_index b i := by
    unfold alpha_index
    simp only []
    rw [h (2 + i * 3 / 8) (by omega), h (2 + i * 3 / 8 + 1) (by omega)]
  rw [htab, hidx]

/-- The tile of a block depends only on the `block_size` bytes of the block. -/
theorem decode_block_take (dxt_type : Nat) (p s : List Nat) :
    decode_block dxt_type (p.take (block_size dxt_type)) s = decode_block dxt_type p s := by
  unfold decode_block block_size
  by_cases h1 : dxt_type = 1
  · rw [if_pos h1, if_pos h1, if_pos h1]
    exact dxt1_congr _ _ s (fun j hj => rd_take p 8 j hj)
  · rw [if_neg h1, if_neg h1, if_neg h1]
    by_cases h3 : dxt_type = 3
    · rw [if_pos h3, if_pos h3]
      exact dxt3_congr _ _ s (fun j hj => rd_take p 16 j hj)
    · rw [if_neg h3, if_neg h3]
      by_cases h5 : dxt_type = 5
      · rw [if_pos h5, if_pos h5]
        exact dxt5_congr _ _ s (fun j hj => rd_take p 16 j hj)
      · rw [if_neg h5, if_neg h5]

/-- The tile of a block does not depend on the previous content of the scratch tile. -/
theorem decode_block_scratch (dxt_type : Nat) (ht : dxt_type = 1 ∨ dxt_type = 3 ∨ dxt_type = 5)
    (p s s2 : List Nat) (h1 : s.length = 64) (h2 : s2.length = 64) :
    decode_block dxt_type p s = decode_block dxt_type p s2 := by
  unfold decode_block
  rcases ht with h | h | h <;> subst h
  · exact dxt1_scratch p s s2 h1 h2
  · exact dxt3_scratch p s s2 h1 h2
  · exact dxt5_scratch p s s2 h1 h2

/-! ## The copy loop of `decode_dxt_image` -/

theorem u32_small (n : Nat) (h : n < 2 ^ 32) : u32 n = n := Nat.mod_eq_of_lt h

theorem toInt_small (n : Nat) (h : n < 2 ^ 31) : toInt n = (n : Int) := if_pos h

theorem toU32_cast (n : Nat) (h : n < 2 ^ 32) : toU32 (n : Int) = n := by
  unfold toU32
  have h2 : ((n : Int) % 2 ^ 32) = (n : Int) := Int.emod_eq_of_lt (by omega) (by exact_mod_cast h)
  rw [h2, Int.toNat_ofNat]

theorem wr_int0 (m : List Nat) (n v : Nat) : wr m ((n : Int) + 0) v = m.set n v := by
  rw [Int.add_zero, wr_nat]

theorem wr_int1 (m : List Nat) (n v : Nat) : wr m ((n : Int) + 1) v = m.set (n + 1) v :=
  wr_nat_add m n 1 v

theorem wr_int2 (m : List Nat) (n v : Nat) : wr m ((n : Int) + 2) v = m.set (n + 2) v :=
  wr_nat_add m n 2 v

theorem wr_int3 (m : List Nat) (n v : Nat) : wr m ((n : Int) + 3) v = m.set (n + 3) v :=
  wr_nat_add m n 3 v

/-- Row-major pixel numbers stay below the number of pixels. -/
theorem pixel_lt (x y width height : Nat) (hx : x < width) (hy : y < height) :
    y * width + x < width * height := by
  have h1 : (y + 1) * width ≤ height * width := Nat.mul_le_mul_right width hy
  rw [Nat.mul_comm width height]
  rw [Nat.add_mul, Nat.one_mul] at h1
  omega

/-- A row-major pixel number determines the pixel. -/
theorem pixel_inj (x y x2 y2 width : Nat) (hx : x < width) (hx2 : x2 < width)
    (h : y * width + x = y2 * width + x2) : x = x2 ∧ y = y2 := by
  have e1 : (y * width + x) % width = x := by
    rw [Nat.add_comm, Nat.add_mul_mod_self_right, Nat.mod_eq_of_lt hx]
  have e2 : (y2 * width + x2) % width = x2 := by
    rw [Nat.add_comm, Nat.add_mul_mod_self_right, Nat.mod_eq_of_lt hx2]
  have hxx : x = x2 := by rw [← e1, ← e2, h]
  subst hxx
  have hpos : 0 < width := by omega
  have hyw : y * width = y2 * width := by omega
  exact ⟨rfl, Nat.eq_of_mul_eq_mul_right hpos hyw⟩

/-- What a read of byte `k` of pixel `q` sees after one iteration of the copy loop,
when no index arithmetic overflows. -/
theorem copy_pixel_rd (width height blk_x blk_y : Nat) (tile m : List Nat) (py px : Nat)
    (hov : 4 * (width * height) < 2 ^ 31)
    (hbx : blk_x * 4 + px < 2 ^ 31) (hby : blk_y * 4 + py < 2 ^ 31)
    (hm : m.length = 4 * (width * height)) (q k : Nat) (hk : k < 4) :
    rd (copy_pixel width height blk_x blk_y tile m py px) (4 * q + k)
      = if (blk_x * 4 + px < width ∧ blk_y * 4 + py < height)
            ∧ q = (blk_y * 4 + py) * width + (blk_x * 4 + px)
        then rd tile ((py * 4 + px) * 4 + k) else rd m (4 * q + k) := by
  unfold copy_pixel
  simp only [u32_small (blk_x * 4 + px) (by omega), u32_small (blk_y * 4 + py) (by omega),
    toInt_small _ hbx, toInt_small _ hby, toU32_cast (blk_x * 4 + px) (by omega),
    toU32_cast (blk_y * 4 + py) (by omega)]
  by_cases hin : blk_x * 4 + px < width ∧ blk_y * 4 + py < height
  · have hlt := pixel_lt _ _ width height hin.1 hin.2
    rw [if_neg (by omega)]
    rw [u32_small ((blk_y * 4 + py) * width) (by omega),
      u32_small ((blk_y * 4 + py) * width + (blk_x * 4 + px)) (by omega),
      u32_small (((blk_y * 4 + py) * width + (blk_x * 4 + px)) * 4) (by omega),
      toInt_small _ (by omega), wr_int0, wr_int1, wr_int2, wr_int3,
      rd_set4 _ _ _ _ _ _ (by omega)]
    by_cases hq : q = (blk_y * 4 + py) * width + (blk_x * 4 + px)
    · rw [if_pos (show (blk_x * 4 + px < width ∧ blk_y * 4 + py < height)
          ∧ q = (blk_y * 4 + py) * width + (blk_x * 4 + px) from ⟨hin, hq⟩)]
      subst hq
      interval_cases k
      · rw [if_pos (by omega)]
      · rw [if_neg (by omega), if_pos (by omega)]
      · rw [if_neg (by omega), if_neg (by omega), if_pos (by omega)]
      · rw [if_neg (by omega), if_neg (by omega), if_neg (by omega), if_pos (by omega)]
    · rw [if_neg (show ¬ ((blk_x * 4 + px < width ∧ blk_y * 4 + py < height)
          ∧ q = (blk_y * 4 + py) * width + (blk_x * 4 + px)) from fun hh => hq hh.2),
        if_neg (by omega), if_neg (by omega), if_neg (by omega), if_neg (by omega)]
  · rw [if_pos (show blk_x * 4 + px ≥ width ∨ blk_y * 4 + py ≥ height by omega),
      if_neg (show ¬ ((blk_x * 4 + px < width ∧ blk_y * 4 + py < height)
          ∧ q = (blk_y * 4 + py) * width + (blk_x * 4 + px)) from fun hh => hin hh.1)]

/-- An invariant of the body of two nested loops holds after them. -/
theorem foldl2_inv {α γ β : Type} (f : β → α → γ → β) (P : β → Prop) (l1 : List α)
    (l2 : List γ) (b : β) (hb : P b)
    (hstep : ∀ m a c, a ∈ l1 → c ∈ l2 → P m → P (f m a c)) :
    P (l1.foldl (fun m a => l2.foldl (fun m2 c => f m2 a c) m) b) :=
  foldl_inv _ P l1 b hb (fun m a ha hm =>
    foldl_inv _ P l2 m hm (fun m2 c hc hm2 => hstep m2 a c ha hc hm2))

/-- A property established by the iteration `(a0, c0)` of two nested loops and kept by
every iteration holds after them. -/
theorem foldl2_reach {α γ β : Type} (f : β → α → γ → β) (Q P : β → Prop) (l1 : List α)
    (l2 : List γ) (a0 : α) (c0 : γ) (ha0 : a0 ∈ l1) (hc0 : c0 ∈ l2) (b : β) (hQ : Q b)
    (hQstep : ∀ m a c, a ∈ l1 → c ∈ l2 → Q m → Q (f m a c))
    (hStart : ∀ m, Q m → P (f m a0 c0))
    (hKeep : ∀ m a c, a ∈ l1 → c ∈ l2 → Q m → P m → P (f m a c)) :
    P (l1.foldl (fun m a => l2.foldl (fun m2 c => f m2 a c) m) b) := by
  refine foldl_reach _ Q P l1 a0 ha0 b hQ ?_ ?_ ?_
  · intro m a ha hm
    exact foldl_inv _ Q l2 m hm (fun m2 c hc hm2 => hQstep m2 a c ha hc hm2)
  · intro m hm
    exact foldl_reach _ Q P l2 c0 hc0 m hm (fun m2 c hc hm2 => hQstep m2 a0 c ha0 hc hm2)
      hStart (fun m2 c hc hq hp => hKeep m2 a0 c ha0 hc hq hp)
  · intro m a ha hq hp
    have hboth : Q (l2.foldl (fun m2 c => f m2 a c) m) ∧ P (l2.foldl (fun m2 c => f m2 a c) m) :=
      foldl_inv _ (fun m2 => Q m2 ∧ P m2) l2 m ⟨hq, hp⟩
        (fun m2 c hc hm2 => ⟨hQstep m2 a c ha hc hm2.1, hKeep m2 a c ha hc hm2.1 hm2.2⟩)
    exact hboth.2

/-- What a read of byte `k` of pixel `(x, y)` sees after the copy of the tile of block
`(blk_x, blk_y)`, when no index arithmetic overflows. -/
theorem decode_tile_rd (image_data : List Nat) (width height dxt_type : Nat)
    (stack : Nat → Nat) (blk_y : Nat) (m : List Nat) (blk_x : Nat)
    (hov : 4 * (width * height) < 2 ^ 31)
    (hbx : blk_x * 4 + 3 < 2 ^ 31) (hby : blk_y * 4 + 3 < 2 ^ 31)
    (hm : m.length = 4 * (width * height)) (x y k : Nat) (hx : x < width) (hy : y < height)
    (hk : k < 4) :
    rd (decode_tile image_data width height dxt_type stack blk_y m blk_x)
        (4 * (y * width + x) + k)
      = if blk_x = x / 4 ∧ blk_y = y / 4 then
          rd (decode_block dxt_type (dxt_block image_data width dxt_type blk_x blk_y)
            ((List.range 64).map stack)) ((y % 4 * 4 + x % 4) * 4 + k)
        else rd m (4 * (y * width + x) + k) := by
  unfold decode_tile
  simp only []
  generalize decode_block dxt_type (dxt_block image_data width dxt_type blk_x blk_y)
    ((List.range 64).map stack) = tile
  have hstep : ∀ (img : List Nat) (py px : Nat), py ∈ List.range 4 → px ∈ List.range 4 →
      img.length = 4 * (width * height) →
      rd (copy_pixel width height blk_x blk_y tile img py px) (4 * (y * width + x) + k)
        = if blk_x * 4 + px = x ∧ blk_y * 4 + py = y then rd tile ((py * 4 + px) * 4 + k)
          else rd img (4 * (y * width + x) + k) := by
    intro img py px hpy hpx himg
    have hpy4 : py < 4 := List.mem_range.mp hpy
    have hpx4 : px < 4 := List.mem_range.mp hpx
    rw [copy_pixel_rd width height blk_x blk_y tile img py px hov (by omega) (by omega) himg
      (y * width + x) k hk]
    by_cases hc : blk_x * 4 + px = x ∧ blk_y * 4 + py = y
    · rw [if_pos hc, if_pos ⟨⟨by omega, by omega⟩, by rw [hc.1, hc.2]⟩]
    · rw [if_neg hc, if_neg]
      rintro ⟨⟨h1, _⟩, h3⟩
      have := pixel_inj x y (blk_x * 4 + px) (blk_y * 4 + py) width hx h1 h3
      exact hc ⟨this.1.symm, this.2.symm⟩
  have hlen : ∀ (img : List Nat) (py px : Nat), py ∈ List.range 4 → px ∈ List.range 4 →
      img.length = 4 * (width * height) →
      (copy_pixel width height blk_x blk_y tile img py px).length = 4 * (width * height) :=
    fun img py px _ _ himg => (length_copy_pixel _ _ _ _ _ _ _ _).trans himg
  by_cases hmatch : blk_x = x / 4 ∧ blk_y = y / 4
  · rw [if_pos hmatch]
    refine foldl2_reach (fun img py px => copy_pixel width height blk_x blk_y tile img py px)
      (fun img => img.length = 4 * (width * height))
      (fun img => rd img (4 * (y * width + x) + k) = rd tile ((y % 4 * 4 + x % 4) * 4 + k))
      (List.range 4) (List.range 4) (y % 4) (x % 4) (List.mem_range.mpr (by omega))
      (List.mem_range.mpr (by omega)) m hm hlen ?_ ?_
    · intro img himg
      show rd (copy_pixel width height blk_x blk_y tile img (y % 4) (x % 4)) _ = _
      rw [hstep img (y % 4) (x % 4) (List.mem_range.mpr (by omega))
        (List.mem_range.mpr (by omega)) himg, if_pos ⟨by omega, by omega⟩]
    · intro img py px hpy hpx himg hp
      have hpy4 : py < 4 := List.mem_range.mp hpy
      have hpx4 : px < 4 := List.mem_range.mp hpx
      show rd (copy_pixel width height blk_x blk_y tile img py px) _ = _
      rw [hstep img py px hpy hpx himg]
      by_cases hc : blk_x * 4 + px = x ∧ blk_y * 4 + py = y
      · rw [if_pos hc]
        have e1 : px = x % 4 := by omega
        have e2 : py = y % 4 := by omega
        rw [e1, e2]
      · rw [if_neg hc]
        exact hp
  · rw [if_neg hmatch]
    have hboth := foldl2_inv (fun img py px => copy_pixel width height blk_x blk_y tile img py px)
      (fun img => img.length = 4 * (width * height)
        ∧ rd img (4 * (y * width + x) + k) = rd m (4 * (y * width + x) + k))
      (List.range 4) (List.range 4) m ⟨hm, rfl⟩
      (fun img py px hpy hpx himg => by
        have hpy4 : py < 4 := List.mem_range.mp hpy
        have hpx4 : px < 4 := List.mem_range.mp hpx
        refine ⟨hlen img py px hpy hpx himg.1, ?_⟩
        show rd (copy_pixel width height blk_x blk_y tile img py px) _ = _
        rw [hstep img py px hpy hpx himg.1, if_neg (fun hc => hmatch ⟨by omega, by omega⟩)]
        exact himg.2)
    exact hboth.2

/-- Bounds that follow from `4 * width * height < 2^31` for a non-empty image. -/
theorem dims_small (width height : Nat) (hw : 1 ≤ width) (hh : 1 ≤ height)
    (hov : 4 * (width * height) < 2 ^ 31) :
    width < 2 ^ 29 ∧ height < 2 ^ 29
    ∧ 16 * ((width + 3) / 4 * ((height + 3) / 4)) < 2 ^ 32 := by
  have h1 : width ≤ width * height := Nat.le_mul_of_pos_right width hh
  have h2 : height ≤ width * height := Nat.le_mul_of_pos_left height hw
  have h3 : (width + 3) / 4 * 4 ≤ width + 3 := Nat.div_mul_le_self _ _
  have h4 : (height + 3) / 4 * 4 ≤ height + 3 := Nat.div_mul_le_self _ _
  have h5 : (width + 3) / 4 * 4 * ((height + 3) / 4 * 4) ≤ (width + 3) * (height + 3) :=
    Nat.mul_le_mul h3 h4
  have h6 : (width + 3) / 4 * 4 * ((height + 3) / 4 * 4)
      = 16 * ((width + 3) / 4 * ((height + 3) / 4)) := by ring
  have h7 : (width + 3) * (height + 3) = width * height + 3 * width + 3 * height + 9 := by ring
  refine ⟨by omega, by omega, by omega⟩

theorem blocks_wide_eq (width : Nat) (h : width < 2 ^ 29) : blocks_wide width = (width + 3) / 4 := by
  unfold blocks_wide
  rw [u32_small _ (by omega)]

theorem blocks_high_eq (height : Nat) (h : height < 2 ^ 29) :
    blocks_high height = (height + 3) / 4 := by
  unfold blocks_high
  rw [u32_small _ (by omega)]

/-- What a read of byte `k` of pixel `(x, y)` sees after the block loops. -/
theorem decode_blocks_rd (image_data : List Nat) (width height dxt_type : Nat)
    (stack : Nat → Nat) (m : List Nat) (hw : 1 ≤ width) (hh : 1 ≤ height)
    (hov : 4 * (width * height) < 2 ^ 31) (hm : m.length = 4 * (width * height))
    (x y k : Nat) (hx : x < width) (hy : y < height) (hk : k < 4) :
    rd (decode_blocks image_data width height dxt_type stack m) (4 * (y * width + x) + k)
      = rd (decode_block dxt_type (dxt_block image_data width dxt_type (x / 4) (y / 4))
          ((List.range 64).map stack)) ((y % 4 * 4 + x % 4) * 4 + k) := by
  obtain ⟨hw29, hh29, _⟩ := dims_small width height hw hh hov
  unfold decode_blocks
  rw [blocks_wide_eq width hw29, blocks_high_eq height hh29]
  have hstep : ∀ (img : List Nat) (blk_y blk_x : Nat), blk_y ∈ List.range ((height + 3) / 4) →
      blk_x ∈ List.range ((width + 3) / 4) → img.length = 4 * (width * height) →
      rd (decode_tile image_data width height dxt_type stack blk_y img blk_x)
          (4 * (y * width + x) + k)
        = if blk_x = x / 4 ∧ blk_y = y / 4 then
            rd (decode_block dxt_type (dxt_block image_data width dxt_type blk_x blk_y)
              ((List.range 64).map stack)) ((y % 4 * 4 + x % 4) * 4 + k)
          else rd img (4 * (y * width + x) + k) := by
    intro img blk_y blk_x hby hbx himg
    have hby2 : blk_y < (height + 3) / 4 := List.mem_range.mp hby
    have hbx2 : blk_x < (width + 3) / 4 := List.mem_range.mp hbx
    exact decode_tile_rd image_data width height dxt_type stack blk_y img blk_x hov
      (by omega) (by omega) himg x y k hx hy hk
  refine foldl2_reach
    (fun img blk_y blk_x => decode_tile image_data width height dxt_type stack blk_y img blk_x)
    (fun img => img.length = 4 * (width * height))
    (fun img => rd img (4 * (y * width + x) + k)
      = rd (decode_block dxt_type (dxt_block image_data width dxt_type (x / 4) (y / 4))
          ((List.range 64).map stack)) ((y % 4 * 4 + x % 4) * 4 + k))
    (List.range ((height + 3) / 4)) (List.range ((width + 3) / 4)) (y / 4) (x / 4)
    (List.mem_range.mpr (by omega)) (List.mem_range.mpr (by omega)) m hm ?_ ?_ ?_
  · intro img blk_y blk_x _ _ himg
    exact (length_decode_tile _ _ _ _ _ _ _ _).trans himg
  · intro img himg
    show rd (decode_tile image_data width height dxt_type stack (y / 4) img (x / 4)) _ = _
    rw [hstep img (y / 4) (x / 4) (List.mem_range.mpr (by omega))
      (List.mem_range.mpr (by omega)) himg, if_pos ⟨rfl, rfl⟩]
  · intro img blk_y blk_x hby hbx himg hp
    show rd (decode_tile image_data width height dxt_type stack blk_y img blk_x) _ = _
    rw [hstep img blk_y blk_x hby hbx himg]
    by_cases hc : blk_x = x / 4 ∧ blk_y = y / 4
    · rw [if_pos hc, hc.1, hc.2]
    · rw [if_neg hc]
      exact hp

/-- The pointer `dxt_block` of block `(blk_x, blk_y)` points at block number
`blk_y * ceil(width/4) + blk_x` when the offset does not overflow. -/
theorem dxt_block_eq (image_data : List Nat) (width height dxt_type blk_x blk_y : Nat)
    (hw : 1 ≤ width) (hh : 1 ≤ height) (hov : 4 * (width * height) < 2 ^ 31)
    (hbx : blk_x < (width + 3) / 4) (hby : blk_y < (height + 3) / 4) :
    blk_y * ((width + 3) / 4) + blk_x < (width + 3) / 4 * ((height + 3) / 4)
    ∧ dxt_block image_data width dxt_type blk_x blk_y
        = image_data.drop ((blk_y * ((width + 3) / 4) + blk_x) * block_size dxt_type) := by
  obtain ⟨hw29, hh29, h16⟩ := dims_small width height hw hh hov
  have hn : blk_y * ((width + 3) / 4) + blk_x < (width + 3) / 4 * ((height + 3) / 4) := by
    have := pixel_lt blk_x blk_y ((width + 3) / 4) ((height + 3) / 4) hbx hby
    exact this
  have hbs : block_size dxt_type ≤ 16 := by
    unfold block_size
    split <;> omega
  have hmul : (blk_y * ((width + 3) / 4) + blk_x) * block_size dxt_type
      ≤ (width + 3) / 4 * ((height + 3) / 4) * 16 :=
    Nat.mul_le_mul (Nat.le_of_lt hn) hbs
  refine ⟨hn, ?_⟩
  unfold dxt_block
  rw [blocks_wide_eq width hw29, u32_small (blk_y * ((width + 3) / 4)) (by omega),
    u32_small (blk_y * ((width + 3) / 4) + blk_x) (by omega), u32_small _ (by omega)]

/-! ## The decoded image -/

/-- C1: for every `width >= 1`, `height >= 1` with `4 * width * height < 2^31` (no
index arithmetic overflows), every DXT variant and every `image_data` holding
`ceil(width/4) * ceil(height/4)` blocks, `decode_dxt_image` (once `malloc` succeeded)
builds an image of `4 * width * height` bytes in which, for every `x < width` and
`y < height`, the four bytes at offset `(y*width + x)*4` are pixel
`(x mod 4, y mod 4)` (tile offset `((y mod 4)*4 + (x mod 4))*4`) of the tile decoded
from block number `(y div 4) * ceil(width/4) + (x div 4)`, a block that lies inside
`image_data`; no other tile pixel reaches the image. -/
theorem decode_dxt_image_pixels (image_data : List Nat) (width height dxt_type : Nat)
    (g stack : Nat → Nat) (scratch : List Nat)
    (hw : 1 ≤ width) (hh : 1 ≤ height) (hov : 4 * width * height < 2 ^ 31)
    (ht : dxt_type = 1 ∨ dxt_type = 3 ∨ dxt_type = 5)
    (hdata : (width + 3) / 4 * ((height + 3) / 4) * block_size dxt_type ≤ image_data.length)
    (hs : scratch.length = 64) :
    ∃ img, decode_dxt_image image_data width height dxt_type (some g) stack = some img
      ∧ img.length = 4 * width * height
      ∧ ∀ x y, x < width → y < height →
          (nth_block image_data dxt_type (y / 4 * ((width + 3) / 4) + x / 4)).length
            = block_size dxt_type
          ∧ pixel img (y * width + x)
            = pixel (decode_block dxt_type
                (nth_block image_data dxt_type (y / 4 * ((width + 3) / 4) + x / 4)) scratch)
              (y % 4 * 4 + x % 4) := by
  have hov2 : 4 * (width * height) < 2 ^ 31 := by rw [← Nat.mul_assoc]; exact hov
  have hsize : decoded_size width height = 4 * (width * height) := by
    unfold decoded_size total_pixels
    rw [u32_small (width * height) (by omega), u32_small _ (by omega)]
    omega
  have hm : ((List.range (decoded_size width height)).map g).length = 4 * (width * height) := by
    rw [List.length_map, List.length_range, hsize]
  refine ⟨decode_blocks image_data width height dxt_type stack
    ((List.range (decoded_size width height)).map g), rfl, ?_, ?_⟩
  · rw [length_decode_blocks, hm, Nat.mul_assoc]
  · intro x y hx hy
    obtain ⟨hn, hptr⟩ := dxt_block_eq image_data width height dxt_type (x / 4) (y / 4) hw hh
      hov2 (by omega) (by omega)
    have hblock : (nth_block image_data dxt_type (y / 4 * ((width + 3) / 4) + x / 4)).length
        = block_size dxt_type := by
      have h1 : (y / 4 * ((width + 3) / 4) + x / 4 + 1) * block_size dxt_type
          ≤ (width + 3) / 4 * ((height + 3) / 4) * block_size dxt_type :=
        Nat.mul_le_mul_right _ hn
      rw [Nat.add_mul, Nat.one_mul] at h1
      unfold nth_block
      rw [List.length_take, List.length_drop]
      omega
    refine ⟨hblock, ?_⟩
    have htile : decode_block dxt_type (dxt_block image_data width dxt_type (x / 4) (y / 4))
          ((List.range 64).map stack)
        = decode_block dxt_type
            (nth_block image_data dxt_type (y / 4 * ((width + 3) / 4) + x / 4)) scratch := by
      rw [hptr]
      unfold nth_block
      rw [decode_block_take]
      exact decode_block_scratch dxt_type ht _ _ _ (by simp) hs
    have hbyte := fun k hk =>
      decode_blocks_rd image_data width height dxt_type stack _ hw hh hov2 hm x y k hx hy hk
    unfold pixel
    rw [← htile]
    have e0 := hbyte 0 (by omega)
    have e1 := hbyte 1 (by omega)
    have e2 := hbyte 2 (by omega)
    have e3 := hbyte 3 (by omega)
    rw [Nat.mul_comm (y % 4 * 4 + x % 4) 4] at e0 e1 e2 e3
    rw [Nat.add_zero] at e0
    rw [e0, e1, e2, e3]
    rfl

/-- Witness of `decode_dxt_image_pixels`: `width = 5`, `height = 3`, DXT1, two blocks;
pixel `(4, 2)` comes from block number 1, that is block `(1, 0)`, at tile coordinate
`(0, 2)`. -/
theorem decode_dxt_image_pixels_witness :
    ∃ img,
      decode_dxt_image [0x00, 0xF8, 0x00, 0xF8, 0x00, 0x00, 0x00, 0x00,
          0xFF, 0xFF, 0x00, 0x00, 0x1B, 0x1B, 0x1B, 0x1B] 5 3 1
          (some (fun _ => 0xCD)) (fun _ => 0xAA) = some img
      ∧ img.length = 4 * 5 * 3
      ∧ pixel img (2 * 5 + 4)
        = pixel (decode_block 1 (nth_block [0x00, 0xF8, 0x00, 0xF8, 0x00, 0x00, 0x00, 0x00,
            0xFF, 0xFF, 0x00, 0x00, 0x1B, 0x1B, 0x1B, 0x1B] 1 (2 / 4 * ((5 + 3) / 4) + 4 / 4))
            (List.replicate 64 0)) (2 % 4 * 4 + 4 % 4) := by
  obtain ⟨img, h1, h2, h3⟩ := decode_dxt_image_pixels
    [0x00, 0xF8, 0x00, 0xF8, 0x00, 0x00, 0x00, 0x00,
      0xFF, 0xFF, 0x00, 0x00, 0x1B, 0x1B, 0x1B, 0x1B] 5 3 1 (fun _ => 0xCD) (fun _ => 0xAA)
    (List.replicate 64 0) (by decide) (by decide) (by decide) (by decide) (by decide)
    (by decide)
  exact ⟨img, h1, h2, (h3 4 2 (by decide) (by decide)).2⟩

/-! ## The header checks of `convert_blp_file` -/

/-- No call of the verbose listings is a call of the decoder or touches image data. -/
theorem listing_calls (verbose : Bool) (c : Call)
    (hc : c ∈ header_listing verbose ∨ c ∈ reading_listing verbose ∨ c ∈ dxtc_listing verbose) :
    c.is_decode = false ∧ c.touches_image = false := by
  cases verbose
  · simp [header_listing, reading_listing, dxtc_listing] at hc
  · simp only [header_listing, reading_listing, dxtc_listing, if_true, List.mem_cons,
      List.mem_singleton, List.not_mem_nil, or_false] at hc
    rcases hc with (h | h | h | h | h | h | h) | h | h | h <;> subst h <;> exact ⟨rfl, rfl⟩

/-- The guard of the label reads, with the table sizes evaluated. -/
theorem labels_guard (header : blp2header) (verbose : Bool) :
    (verbose = true ∧ ¬ (header.type < type_labels.length
        ∧ header.compression < compression_labels.length))
      ↔ labels_in_bounds header verbose = false := by
  unfold labels_in_bounds
  rw [decide_eq_false_iff_not]
  have h2 : type_labels.length = 2 := rfl
  have h4 : compression_labels.length = 4 := rfl
  rw [h2, h4]
  cases verbose <;> simp

/-- With a readable header and the right magic, the run is undefined exactly when the
verbose listing reads one of its label tables out of bounds. -/
theorem convert_none_iff (file : List Nat) (verbose malloc_ok : Bool)
    (hlen : header_size ≤ file.length) (hid : file.take 4 = [0x42, 0x4C, 0x50, 0x32]) :
    convert_blp_file (some file) verbose malloc_ok = none
      ↔ labels_in_bounds (read_header file) verbose = false := by
  have hident : (read_header file).ident = file.take 4 := rfl
  have hlen2 : ¬ file.length < header_size := by omega
  simp only [convert_blp_file, if_neg hlen2, hident, hid, labels_guard]
  generalize rd (read_header file).mipmap_offsets 0 = off
  generalize rd (read_header file).mipmap_lengths 0 = len
  generalize (read_header file).compression = comp
  generalize (read_header file).alpha_type = alpha
  split_ifs <;> simp_all

/-- The calls of a run that reaches the decoder. -/
theorem convert_decode_run (file : List Nat) (verbose : Bool) (t : Nat)
    (hlen : header_size ≤ file.length) (hid : file.take 4 = [0x42, 0x4C, 0x50, 0x32])
    (hsafe : labels_in_bounds (read_header file) verbose = true)
    (hoff : rd (read_header file).mipmap_offsets 0 ≠ 0)
    (hlen0 : rd (read_header file).mipmap_lengths 0 ≠ 0)
    (hrange : rd (read_header file).mipmap_offsets 0 + rd (read_header file).mipmap_lengths 0
      ≤ file.length)
    (hcomp : (read_header file).compression = 2)
    (halpha : (read_header file).alpha_type = 0 ∧ t = 1 ∨ (read_header file).alpha_type = 1 ∧ t = 3
      ∨ (read_header file).alpha_type = 7 ∧ t = 5) :
    convert_blp_file (some file) verbose true = some (decode_run file verbose t) := by
  have hident : (read_header file).ident = file.take 4 := rfl
  have hlen2 : ¬ file.length < header_size := by omega
  have hg : ¬ (verbose = true ∧ ¬ ((read_header file).type < type_labels.length
      ∧ (read_header file).compression < compression_labels.length)) := by
    rw [labels_guard, hsafe]; simp
  simp only [convert_blp_file, if_neg hlen2, hident, hid, decode_run, mip_slice, if_neg hg]
  generalize rd (read_header file).mipmap_offsets 0 = off at *
  generalize rd (read_header file).mipmap_lengths 0 = len at *
  generalize (read_header file).alpha_type = alpha at *
  rcases halpha with ⟨h, rfl⟩ | ⟨h, rfl⟩ | ⟨h, rfl⟩ <;> subst h <;>
    simp [hoff, hlen0, hcomp, Nat.not_lt.mpr hrange]

/-- With a readable header, the right magic and label reads in bounds, the run is
defined and `decode_dxt_image` is called exactly when mip 0 is present, `malloc`
succeeds, the mip range lies in the file, `compression` is 2 and `alpha_type` is 0, 1
or 7. -/
theorem convert_decode_iff (file : List Nat) (verbose malloc_ok : Bool)
    (hlen : header_size ≤ file.length) (hid : file.take 4 = [0x42, 0x4C, 0x50, 0x32])
    (hsafe : labels_in_bounds (read_header file) verbose = true) :
    ∃ run, convert_blp_file (some file) verbose malloc_ok = some run
      ∧ ((∃ c, c ∈ run ∧ c.is_decode = true)
          ↔ (rd (read_header file).mipmap_offsets 0 ≠ 0
              ∧ rd (read_header file).mipmap_lengths 0 ≠ 0
              ∧ malloc_ok = true
              ∧ rd (read_header file).mipmap_offsets 0 + rd (read_header file).mipmap_lengths 0
                  ≤ file.length
              ∧ (read_header file).compression = 2
              ∧ ((read_header file).alpha_type = 0 ∨ (read_header file).alpha_type = 1
                  ∨ (read_header file).alpha_type = 7))) := by
  have hident : (read_header file).ident = file.take 4 := rfl
  have hlen2 : ¬ file.length < header_size := by omega
  have hg : ¬ (verbose = true ∧ ¬ ((read_header file).type < type_labels.length
      ∧ (read_header file).compression < compression_labels.length)) := by
    rw [labels_guard, hsafe]; simp
  have hL : (header_listing verbose).any Call.is_decode = false := by cases verbose <;> rfl
  have hR : (reading_listing verbose).any Call.is_decode = false := by cases verbose <;> rfl
  have hD : (dxtc_listing verbose).any Call.is_decode = false := by cases verbose <;> rfl
  have hany : ∀ run : List Call,
      (∃ c, c ∈ run ∧ c.is_decode = true) ↔ run.any Call.is_decode = true := by
    intro run
    rw [List.any_eq_true]
  simp only [convert_blp_file, if_neg hlen2, hident, hid, if_neg hg, hany]
  generalize rd (read_header file).mipmap_offsets 0 = off
  generalize rd (read_header file).mipmap_lengths 0 = len
  generalize (read_header file).compression = comp
  generalize (read_header file).alpha_type = alpha
  generalize header_listing verbose = L at hL
  generalize reading_listing verbose = R at hR
  generalize dxtc_listing verbose = D at hD
  split_ifs with h1 h2 h3 h4 h5 h6 h7 <;> refine ⟨_, rfl, ?_⟩ <;>
    simp only [List.any_append, List.any_cons, List.any_nil, Call.is_decode, hL, hR, hD,
      Bool.or_false, Bool.false_or, Bool.or_true, Bool.true_or, Bool.false_eq_true, false_iff,
      true_iff, not_and, ne_eq]
  all_goals first
    | exact absurd rfl h1
    | (simp_all; done)
    | (simp_all; omega)

theorem mip_slice_length (file : List Nat)
    (hrange : rd (read_header file).mipmap_offsets 0 + rd (read_header file).mipmap_lengths 0
      ≤ file.length) :
    (mip_slice file).length = rd (read_header file).mipmap_lengths 0 := by
  unfold mip_slice
  rw [List.length_take, List.length_drop]
  omega

/-- With a readable header, the right magic and label reads in bounds, the run ends at
the mip-0 check exactly when entry 0 of one of the two tables is zero. -/
theorem convert_no_mip_iff (file : List Nat) (verbose malloc_ok : Bool)
    (hlen : header_size ≤ file.length) (hid : file.take 4 = [0x42, 0x4C, 0x50, 0x32])
    (hsafe : labels_in_bounds (read_header file) verbose = true) :
    convert_blp_file (some file) verbose malloc_ok = some (no_mip_run verbose)
      ↔ (rd (read_header file).mipmap_offsets 0 = 0
          ∨ rd (read_header file).mipmap_lengths 0 = 0) := by
  have hident : (read_header file).ident = file.take 4 := rfl
  have hlen2 : ¬ file.length < header_size := by omega
  have hg : ¬ (verbose = true ∧ ¬ ((read_header file).type < type_labels.length
      ∧ (read_header file).compression < compression_labels.length)) := by
    rw [labels_guard, hsafe]; simp
  simp only [convert_blp_file, if_neg hlen2, hident, hid, if_neg hg, no_mip_run, ne_eq,
    not_true_eq_false, if_false]
  generalize rd (read_header file).mipmap_offsets 0 = off
  generalize rd (read_header file).mipmap_lengths 0 = len
  generalize (read_header file).compression = comp
  generalize (read_header file).alpha_type = alpha
  by_cases h : off = 0 ∨ len = 0
  · rw [if_pos h]
    exact ⟨fun _ => h, fun _ => rfl⟩
  · rw [if_neg h]
    refine ⟨fun he => absurd he ?_, fun h2 => absurd h2 h⟩
    cases verbose <;>
      simp only [header_listing, reading_listing, dxtc_listing, if_true, Bool.false_eq_true,
        if_false] <;>
      split_ifs <;> simp

/-- With a readable header, the right magic and label reads in bounds, a run that does
not end at the mip-0 check goes on to the `malloc` of `image_data`. -/
theorem convert_malloc_mem (file : List Nat) (verbose malloc_ok : Bool)
    (hlen : header_size ≤ file.length) (hid : file.take 4 = [0x42, 0x4C, 0x50, 0x32])
    (hsafe : labels_in_bounds (read_header file) verbose = true)
    (hne : ¬ (rd (read_header file).mipmap_offsets 0 = 0
      ∨ rd (read_header file).mipmap_lengths 0 = 0)) :
    ∃ run, convert_blp_file (some file) verbose malloc_ok = some run
      ∧ Call.malloc (rd (read_header file).mipmap_lengths 0) ∈ run := by
  have hident : (read_header file).ident = file.take 4 := rfl
  have hlen2 : ¬ file.length < header_size := by omega
  have hg : ¬ (verbose = true ∧ ¬ ((read_header file).type < type_labels.length
      ∧ (read_header file).compression < compression_labels.length)) := by
    rw [labels_guard, hsafe]; simp
  simp only [convert_blp_file, if_neg hlen2, hident, hid, if_neg hg, ne_eq,
    not_true_eq_false, if_false, if_neg hne]
  generalize rd (read_header file).mipmap_offsets 0 = off
  generalize rd (read_header file).mipmap_lengths 0 = len
  generalize (read_header file).compression = comp
  generalize (read_header file).alpha_type = alpha
  split_ifs <;> refine ⟨_, rfl, ?_⟩ <;> simp

/-! ## The magic check of `convert_blp_file` -/

/-- C10: for every file whose first four bytes are not `B L P 2`, with or without
`verbose`, `convert_blp_file` never allocates `image_data`, never seeks to or reads mip
data and never calls `decode_dxt_image` (which is what allocates the decoded buffer,
runs the block decoders and writes the image); when the header can be read (at least
1172 bytes) it stops at the magic check, with the message `Invalid BLP file!`. -/
theorem convert_bad_magic (file : List Nat) (verbose malloc_ok : Bool)
    (hmagic : file.take 4 ≠ [0x42, 0x4C, 0x50, 0x32]) :
    ∃ run, convert_blp_file (some file) verbose malloc_ok = some run
      ∧ (∀ c, c ∈ run → c.touches_image = false)
      ∧ (header_size ≤ file.length →
          run = [.fopen, .fread header_size, .printf "Invalid BLP file!", .fclose]) := by
  have hident : (read_header file).ident = file.take 4 := rfl
  by_cases hlen : file.length < header_size
  · refine ⟨[.fopen, .fread header_size, .perror "Error reading header", .fclose], ?_, ?_,
      fun h => absurd h (by omega)⟩
    · simp only [convert_blp_file, if_pos hlen]
    · intro c hc
      simp only [List.mem_cons, List.mem_singleton, List.mem_nil_iff, or_false] at hc
      rcases hc with h | h | h | h <;> subst h <;> rfl
  · refine ⟨[.fopen, .fread header_size, .printf "Invalid BLP file!", .fclose], ?_, ?_,
      fun _ => rfl⟩
    · simp only [convert_blp_file, if_neg hlen, hident]
      rw [if_pos hmagic]
    · intro c hc
      simp only [List.mem_cons, List.mem_singleton, List.mem_nil_iff, or_false] at hc
      rcases hc with h | h | h | h <;> subst h <;> rfl

/-- Witness of `convert_bad_magic`: a 1172-byte file that starts with `BLP1`, with
`verbose` on. -/
theorem convert_bad_magic_witness :
    convert_blp_file (some ([0x42, 0x4C, 0x50, 0x31] ++ List.replicate 1168 0)) true true
      = some [.fopen, .fread header_size, .printf "Invalid BLP file!", .fclose] := by
  obtain ⟨run, h1, _, h3⟩ :=
    convert_bad_magic ([0x42, 0x4C, 0x50, 0x31] ++ List.replicate 1168 0) true true (by decide)
  rw [h1, h3 (by rw [List.length_append, List.length_replicate]; exact Nat.le_refl 1172)]

/-! ## Content type -/

/-- C11, as stated, fails: a file with valid magic, `content_type = 0`, `compression = 2`
and `alpha_kind = 0` is handed to `decode_dxt_image` as DXT1 (run without `verbose`). -/
theorem content_type_not_checked :
    (read_header (sample_file 0 2 0 4 4 1172 8 [0x00, 0xF8, 0x00, 0xF8, 0, 0, 0, 0])).type = 0
    ∧ (sample_file 0 2 0 4 4 1172 8 [0x00, 0xF8, 0x00, 0xF8, 0, 0, 0, 0]).take 4
        = [0x42, 0x4C, 0x50, 0x32]
    ∧ convert_blp_file (some (sample_file 0 2 0 4 4 1172 8
          [0x00, 0xF8, 0x00, 0xF8, 0, 0, 0, 0])) false true
        = some [.fopen, .fread header_size, .malloc 8, .fseek 1172, .fread 8,
            .decode_dxt_image [0x00, 0xF8, 0x00, 0xF8, 0, 0, 0, 0] 4 4 1 false, .fclose] := by
  set_option maxRecDepth 100000 in decide

/-- C11, amended: `convert_blp_file` does not reject a file for its `content_type`.
For every file with a readable header and valid magic whose `content_type` is not 1,
run without `verbose` or with label reads in bounds (`content_type = 0` and
`compression < 4`), the run is defined and the block grid decoder is invoked exactly
when mip 0 is present, `malloc` succeeds, the mip range lies in the file, `compression`
is 2 and `alpha_kind` is 0, 1 or 7, as for `content_type` 1. -/
theorem convert_ignores_type (file : List Nat) (verbose malloc_ok : Bool)
    (hlen : header_size ≤ file.length) (hid : file.take 4 = [0x42, 0x4C, 0x50, 0x32])
    (_htype : (read_header file).type ≠ 1)
    (hsafe : labels_in_bounds (read_header file) verbose = true) :
    ∃ run, convert_blp_file (some file) verbose malloc_ok = some run
      ∧ ((∃ c, c ∈ run ∧ c.is_decode = true)
          ↔ (rd (read_header file).mipmap_offsets 0 ≠ 0
              ∧ rd (read_header file).mipmap_lengths 0 ≠ 0
              ∧ malloc_ok = true
              ∧ rd (read_header file).mipmap_offsets 0 + rd (read_header file).mipmap_lengths 0
                  ≤ file.length
              ∧ (read_header file).compression = 2
              ∧ ((read_header file).alpha_type = 0 ∨ (read_header file).alpha_type = 1
                  ∨ (read_header file).alpha_type = 7))) :=
  convert_decode_iff file verbose malloc_ok hlen hid hsafe

/-- Witness of `convert_ignores_type`: a file with `content_type = 0`, `compression = 2`,
`alpha_kind = 7` and 16 bytes of mip data, run with `verbose`; the decoder is invoked. -/
theorem convert_ignores_type_witness :
    ∃ run, convert_blp_file (some (sample_file 0 2 7 4 4 1172 16
        [0xFF, 0x00, 0, 0, 0, 0, 0, 0, 0x00, 0xF8, 0x00, 0xF8, 0, 0, 0, 0])) true true = some run
      ∧ ∃ c, c ∈ run ∧ c.is_decode = true := by
  obtain ⟨run, h1, h2⟩ := convert_ignores_type (sample_file 0 2 7 4 4 1172 16
      [0xFF, 0x00, 0, 0, 0, 0, 0, 0, 0x00, 0xF8, 0x00, 0xF8, 0, 0, 0, 0]) true true
    (by set_option maxRecDepth 100000 in decide) (by decide)
    (by set_option maxRecDepth 100000 in decide)
    (by set_option maxRecDepth 100000 in decide)
  exact ⟨run, h1, h2.mpr (by set_option maxRecDepth 100000 in decide)⟩

/-! ## Length of mip 0 -/

/-- C12, as stated, fails: a 4 x 4 DXT1 file whose `mip_lengths[0]` is 9, not the
8 bytes of its one block, is decoded all the same: `decode_dxt_image` is called on
the nine-byte slice (run without `verbose`). -/
theorem mip_length_not_checked :
    (sample_file 1 2 0 4 4 1172 9 [0x00, 0xF8, 0x00, 0xF8, 0, 0, 0, 0, 0xAA]).take 4
        = [0x42, 0x4C, 0x50, 0x32]
    ∧ (read_header (sample_file 1 2 0 4 4 1172 9
        [0x00, 0xF8, 0x00, 0xF8, 0, 0, 0, 0, 0xAA])).width = 4
    ∧ (read_header (sample_file 1 2 0 4 4 1172 9
        [0x00, 0xF8, 0x00, 0xF8, 0, 0, 0, 0, 0xAA])).height = 4
    ∧ (read_header (sample_file 1 2 0 4 4 1172 9
        [0x00, 0xF8, 0x00, 0xF8, 0, 0, 0, 0, 0xAA])).alpha_type = 0
    ∧ rd (read_header (sample_file 1 2 0 4 4 1172 9
        [0x00, 0xF8, 0x00, 0xF8, 0, 0, 0, 0, 0xAA])).mipmap_lengths 0 = 9
    ∧ (4 + 3) / 4 * ((4 + 3) / 4) * block_size 1 = 8
    ∧ convert_blp_file (some (sample_file 1 2 0 4 4 1172 9
          [0x00, 0xF8, 0x00, 0xF8, 0, 0, 0, 0, 0xAA])) false true
        = some [.fopen, .fread header_size, .malloc 9, .fseek 1172, .fread 9,
            .decode_dxt_image [0x00, 0xF8, 0x00, 0xF8, 0, 0, 0, 0, 0xAA] 4 4 1 false,
            .fclose] := by
  set_option maxRecDepth 100000 in decide

/-- C12, amended: `convert_blp_file` does not compare `mip_lengths[0]` with the block
count.  For a file with valid magic, run without `verbose` or with label reads in
bounds (`content_type < 2`, `compression < 4`), with non-zero `mip_offsets[0]` and
`mip_lengths[0]`, a readable mip-0 range, `compression = 2` and `alpha_kind` 0, 1 or 7
(variant `t` = 1, 3 or 5), if `mip_lengths[0]` is at least
`ceil(width/4) * ceil(height/4) * block_bytes` then the grid decoder is invoked on the
mip-0 slice, and that slice is at least as long as the blocks that are read from it. -/
theorem convert_long_mip (file : List Nat) (verbose : Bool) (t : Nat)
    (hlen : header_size ≤ file.length) (hid : file.take 4 = [0x42, 0x4C, 0x50, 0x32])
    (hsafe : labels_in_bounds (read_header file) verbose = true)
    (hoff : rd (read_header file).mipmap_offsets 0 ≠ 0)
    (hlen0 : rd (read_header file).mipmap_lengths 0 ≠ 0)
    (hrange : rd (read_header file).mipmap_offsets 0 + rd (read_header file).mipmap_lengths 0
      ≤ file.length)
    (hcomp : (read_header file).compression = 2)
    (halpha : (read_header file).alpha_type = 0 ∧ t = 1 ∨ (read_header file).alpha_type = 1 ∧ t = 3
      ∨ (read_header file).alpha_type = 7 ∧ t = 5)
    (hmip : ((read_header file).width + 3) / 4 * (((read_header file).height + 3) / 4)
      * block_size t ≤ rd (read_header file).mipmap_lengths 0) :
    convert_blp_file (some file) verbose true = some (decode_run file verbose t)
    ∧ Call.decode_dxt_image (mip_slice file) (read_header file).width (read_header file).height
        t verbose ∈ decode_run file verbose t
    ∧ ((read_header file).width + 3) / 4 * (((read_header file).height + 3) / 4) * block_size t
        ≤ (mip_slice file).length := by
  refine ⟨convert_decode_run file verbose t hlen hid hsafe hoff hlen0 hrange hcomp halpha,
    ?_, ?_⟩
  · simp [decode_run]
  · rw [mip_slice_length file hrange]; exact hmip

/-- Witness of `convert_long_mip`: the 4 x 4 DXT1 file with a nine-byte mip 0, run
with `verbose`. -/
theorem convert_long_mip_witness :
    convert_blp_file (some (sample_file 1 2 0 4 4 1172 9
        [0x00, 0xF8, 0x00, 0xF8, 0, 0, 0, 0, 0xAA])) true true
      = some (decode_run (sample_file 1 2 0 4 4 1172 9
          [0x00, 0xF8, 0x00, 0xF8, 0, 0, 0, 0, 0xAA]) true 1) :=
  (convert_long_mip (sample_file 1 2 0 4 4 1172 9 [0x00, 0xF8, 0x00, 0xF8, 0, 0, 0, 0, 0xAA])
    true 1
    (by set_option maxRecDepth 100000 in decide) (by decide)
    (by set_option maxRecDepth 100000 in decide)
    (by set_option maxRecDepth 100000 in decide)
    (by set_option maxRecDepth 100000 in decide)
    (by set_option maxRecDepth 100000 in decide)
    (by set_option maxRecDepth 100000 in decide)
    (by set_option maxRecDepth 100000 in decide)
    (by set_option maxRecDepth 100000 in decide)).1

/-! ## Dispatch on compression and alpha kind -/

/-- C13 holds except where the verbose listing reads a label table out of bounds.  For
a file with valid magic, non-zero `mip_offsets[0]` and `mip_lengths[0]` and a readable
mip-0 range (the `malloc` of `image_data` succeeding): with `verbose` and
`content_type >= 2` or `compression >= 4` the run has undefined behaviour before the
dispatch; otherwise `convert_blp_file` calls `decode_dxt_image` if and only if
`compression = 2` and `alpha_kind` is 0, 1 or 7, the call is on the mip-0 slice with
the header's width and height and with variant 1 (8-byte blocks) for `alpha_kind` 0,
variant 3 (16-byte blocks) for 1 and variant 5 (16-byte blocks) for 7, and for any
other compression or alpha kind no call of the run is a call of the decoder, whether
`malloc` succeeds or not. -/
theorem convert_dispatch (file : List Nat) (verbose : Bool)
    (hlen : header_size ≤ file.length) (hid : file.take 4 = [0x42, 0x4C, 0x50, 0x32])
    (hoff : rd (read_header file).mipmap_offsets 0 ≠ 0)
    (hlen0 : rd (read_header file).mipmap_lengths 0 ≠ 0)
    (hrange : rd (read_header file).mipmap_offsets 0 + rd (read_header file).mipmap_lengths 0
      ≤ file.length) :
    (labels_in_bounds (read_header file) verbose = false →
      convert_blp_file (some file) verbose true = none)
    ∧ (labels_in_bounds (read_header file) verbose = true →
      (∃ run, convert_blp_file (some file) verbose true = some run
        ∧ ((∃ c, c ∈ run ∧ c.is_decode = true)
          ↔ ((read_header file).compression = 2
              ∧ ((read_header file).alpha_type = 0 ∨ (read_header file).alpha_type = 1
                  ∨ (read_header file).alpha_type = 7))))
      ∧ ((read_header file).compression = 2 → (read_header file).alpha_type = 0 →
          convert_blp_file (some file) verbose true = some (decode_run file verbose 1))
      ∧ ((read_header file).compression = 2 → (read_header file).alpha_type = 1 →
          convert_blp_file (some file) verbose true = some (decode_run file verbose 3))
      ∧ ((read_header file).compression = 2 → (read_header file).alpha_type = 7 →
          convert_blp_file (some file) verbose true = some (decode_run file verbose 5))
      ∧ (¬ ((read_header file).compression = 2
            ∧ ((read_header file).alpha_type = 0 ∨ (read_header file).alpha_type = 1
                ∨ (read_header file).alpha_type = 7)) →
          ∀ malloc_ok, ∃ run, convert_blp_file (some file) verbose malloc_ok = some run
            ∧ ∀ c, c ∈ run → c.is_decode = false))
    ∧ (∀ t, Call.decode_dxt_image (mip_slice file) (read_header file).width
        (read_header file).height t verbose ∈ decode_run file verbose t)
    ∧ block_size 1 = 8 ∧ block_size 3 = 16 ∧ block_size 5 = 16 := by
  refine ⟨(convert_none_iff file verbose true hlen hid).mpr, ?_, ?_, rfl, rfl, rfl⟩
  · intro hsafe
    refine ⟨?_, ?_, ?_, ?_, ?_⟩
    · obtain ⟨run, hrun, hiff⟩ := convert_decode_iff file verbose true hlen hid hsafe
      refine ⟨run, hrun, ?_⟩
      rw [hiff]
      constructor
      · rintro ⟨_, _, _, _, h⟩; exact h
      · intro h; exact ⟨hoff, hlen0, rfl, hrange, h⟩
    · intro hc ha
      exact convert_decode_run file verbose 1 hlen hid hsafe hoff hlen0 hrange hc
        (Or.inl ⟨ha, rfl⟩)
    · intro hc ha
      exact convert_decode_run file verbose 3 hlen hid hsafe hoff hlen0 hrange hc
        (Or.inr (Or.inl ⟨ha, rfl⟩))
    · intro hc ha
      exact convert_decode_run file verbose 5 hlen hid hsafe hoff hlen0 hrange hc
        (Or.inr (Or.inr ⟨ha, rfl⟩))
    · intro hno malloc_ok
      obtain ⟨run, hrun, hiff⟩ := convert_decode_iff file verbose malloc_ok hlen hid hsafe
      refine ⟨run, hrun, ?_⟩
      intro c hc
      cases hd : c.is_decode with
      | false => rfl
      | true => exact absurd (hiff.mp ⟨c, hc, hd⟩).2.2.2.2 hno
  · intro t
    simp [decode_run]

/-- Witness of `convert_dispatch`: with `verbose`, a 4 x 4 file with
`content_type = 0xFFFFFFFF`, `compression = 2` and `alpha_kind = 0` reads `type_labels`
out of bounds: the run is undefined. -/
theorem convert_dispatch_witness :
    convert_blp_file (some (sample_file 0xFFFFFFFF 2 0 4 4 1172 8
        [0x00, 0xF8, 0x00, 0xF8, 0, 0, 0, 0])) true true = none :=
  (convert_dispatch (sample_file 0xFFFFFFFF 2 0 4 4 1172 8 [0x00, 0xF8, 0x00, 0xF8, 0, 0, 0, 0])
    true
    (by set_option maxRecDepth 100000 in decide) (by decide)
    (by set_option maxRecDepth 100000 in decide)
    (by set_option maxRecDepth 100000 in decide)
    (by set_option maxRecDepth 100000 in decide)).1
    (by set_option maxRecDepth 100000 in decide)

/-! ## The mip-0 check -/

/-- C14 holds except where the verbose listing reads a label table out of bounds.  For
a file with valid magic: with `verbose` and `content_type >= 2` or `compression >= 4`
the run has undefined behaviour before the mip-0 check; otherwise `convert_blp_file`
ends with the no-mip-level error (the run `fopen`, `fread` of the header, the verbose
listing if any, `No image data found.`, `fclose`: no buffer allocated, no mip data
read, no decoder call) if and only if `mip_offsets[0]` or `mip_lengths[0]` is zero, any
other run goes on to the `malloc` of `image_data`, and two such files that agree on
entry 0 of both tables agree on this outcome, whatever the other fifteen entries
are. -/
theorem convert_no_mip (file : List Nat) (verbose malloc_ok : Bool)
    (hlen : header_size ≤ file.length) (hid : file.take 4 = [0x42, 0x4C, 0x50, 0x32]) :
    (labels_in_bounds (read_header file) verbose = false →
      convert_blp_file (some file) verbose malloc_ok = none)
    ∧ (labels_in_bounds (read_header file) verbose = true →
      (convert_blp_file (some file) verbose malloc_ok = some (no_mip_run verbose)
        ↔ (rd (read_header file).mipmap_offsets 0 = 0
            ∨ rd (read_header file).mipmap_lengths 0 = 0))
      ∧ (convert_blp_file (some file) verbose malloc_ok ≠ some (no_mip_run verbose) →
          ∃ run, convert_blp_file (some file) verbose malloc_ok = some run
            ∧ Call.malloc (rd (read_header file).mipmap_lengths 0) ∈ run)
      ∧ (∀ file2 malloc_ok2, header_size ≤ file2.length →
          file2.take 4 = [0x42, 0x4C, 0x50, 0x32] →
          labels_in_bounds (read_header file2) verbose = true →
          rd (read_header file2).mipmap_offsets 0 = rd (read_header file).mipmap_offsets 0 →
          rd (read_header file2).mipmap_lengths 0 = rd (read_header file).mipmap_lengths 0 →
          (convert_blp_file (some file2) verbose malloc_ok2 = some (no_mip_run verbose)
            ↔ convert_blp_file (some file) verbose malloc_ok = some (no_mip_run verbose))))
    ∧ (∀ c, c ∈ no_mip_run verbose → c.touches_image = false) := by
  refine ⟨(convert_none_iff file verbose malloc_ok hlen hid).mpr, ?_, ?_⟩
  · intro hsafe
    refine ⟨convert_no_mip_iff file verbose malloc_ok hlen hid hsafe, ?_, ?_⟩
    · intro hne
      exact convert_malloc_mem file verbose malloc_ok hlen hid hsafe
        (mt (convert_no_mip_iff file verbose malloc_ok hlen hid hsafe).mpr hne)
    · intro file2 malloc_ok2 hlen' hid' hsafe' ho hl
      rw [convert_no_mip_iff file verbose malloc_ok hlen hid hsafe,
        convert_no_mip_iff file2 verbose malloc_ok2 hlen' hid' hsafe', ho, hl]
  · intro c hc
    unfold no_mip_run at hc
    simp only [List.mem_append, List.mem_cons, List.mem_singleton, List.not_mem_nil,
      or_false] at hc
    rcases hc with ((h | h) | h) | h | h
    · subst h; rfl
    · subst h; rfl
    · exact (listing_calls verbose c (Or.inl h)).2
    · subst h; rfl
    · subst h; rfl

/-- Witness of `convert_no_mip`: with `verbose`, a file with `content_type = 0xFFFFFFFF`
and `mip_offsets[0] = 0` reads `type_labels` out of bounds before the mip-0 check: the
run is undefined. -/
theorem convert_no_mip_witness :
    convert_blp_file (some (sample_file 0xFFFFFFFF 2 7 4 4 0 16
        [0xFF, 0x00, 0, 0, 0, 0, 0, 0, 0x00, 0xF8, 0x00, 0xF8, 0, 0, 0, 0])) true true = none :=
  (convert_no_mip (sample_file 0xFFFFFFFF 2 7 4 4 0 16
      [0xFF, 0x00, 0, 0, 0, 0, 0, 0, 0x00, 0xF8, 0x00, 0xF8, 0, 0, 0, 0]) true true
    (by set_option maxRecDepth 100000 in decide) (by decide)).1
    (by set_option maxRecDepth 100000 in decide)

/-! ## Colour and alpha of DXT3 and DXT5 are independent -/

theorem memcpy_le_congr (a b : List Nat) (h : ∀ j, j < 8 → rd a j = rd b j) :
    memcpy_le a 8 = memcpy_le b 8 := by
  rw [memcpy_le_8, memcpy_le_8, h 0 (by omega), h 1 (by omega), h 2 (by omega), h 3 (by omega),
    h 4 (by omega), h 5 (by omega), h 6 (by omega), h 7 (by omega)]

theorem alpha_index_congr (a b : List Nat) (i : Nat)
    (h : ∀ j, j ∈ alpha_index_reads i → rd a j = rd b j) :
    alpha_index a i = alpha_index b i := by
  unfold alpha_index
  unfold alpha_index_reads at h
  simp only [] at h ⊢
  by_cases hc : i * 3 % 8 > 5
  · rw [if_pos hc] at h
    rw [if_pos hc, if_pos hc, h _ (by simp), h _ (by simp)]
  · rw [if_neg hc] at h
    rw [if_neg hc, if_neg hc, h _ (by simp)]

theorem alpha_index_reads_lt (i : Nat) (hi : i < 16) (j : Nat) (hj : j ∈ alpha_index_reads i) :
    2 ≤ j ∧ j < 8 := by
  unfold alpha_index_reads at hj
  simp only [] at hj
  split_ifs at hj with hc
  · simp only [List.mem_cons, List.mem_singleton, List.not_mem_nil, or_false] at hj
    omega
  · simp only [List.mem_singleton] at hj
    omega

/-- C15: for every block and every tile buffer of 64 bytes, the R, G and B bytes of
every output pixel of `dxt3_to_rgba` and of `dxt5_to_rgba` are the bytes that
`dxt1_to_rgba` produces for block bytes 8..15 (whichever of the two palette modes these
select); the alpha byte of each pixel is the same for any second block that agrees on
bytes 0..7, whatever its bytes 8..15 and whatever the tile held before. -/
theorem dxt35_colour_alpha (block block2 rgba rgba2 : List Nat)
    (hlen : rgba.length = 64) (hlen2 : rgba2.length = 64)
    (hagree : ∀ j, j < 8 → rd block2 j = rd block j) :
    (∀ i k, i < 16 → k < 3 →
      rd (dxt3_to_rgba block rgba) (4 * i + k) = rd (dxt1_to_rgba (block.drop 8) rgba) (4 * i + k)
      ∧ rd (dxt5_to_rgba block rgba) (4 * i + k)
          = rd (dxt1_to_rgba (block.drop 8) rgba) (4 * i + k))
    ∧ (∀ i, i < 16 →
      rd (dxt3_to_rgba block2 rgba2) (4 * i + 3) = rd (dxt3_to_rgba block rgba) (4 * i + 3)
      ∧ rd (dxt5_to_rgba block2 rgba2) (4 * i + 3) = rd (dxt5_to_rgba block rgba) (4 * i + 3)) := by
  constructor
  · intro i k hi hk
    have hm : ¬ (4 * i + k) % 4 = 3 := by omega
    rw [dxt3_rd block rgba hlen _ (by omega), dxt5_rd block rgba hlen _ (by omega), if_neg hm,
      if_neg hm]
    exact ⟨rfl, rfl⟩
  · intro i hi
    have hm : (4 * i + 3) % 4 = 3 := by omega
    have hd : (4 * i + 3) / 4 = i := by omega
    rw [dxt3_rd block rgba hlen _ (by omega), dxt5_rd block rgba hlen _ (by omega),
      dxt3_rd block2 rgba2 hlen2 _ (by omega), dxt5_rd block2 rgba2 hlen2 _ (by omega),
      if_pos hm, if_pos hm, if_pos hm, if_pos hm, hd]
    constructor
    · unfold dxt3_alpha
      rw [memcpy_le_congr block2 block hagree]
    · have htab : alpha_table block2 = alpha_table block := by
        unfold alpha_table
        rw [hagree 0 (by omega), hagree 1 (by omega)]
      rw [htab, alpha_index_congr block2 block i
        (fun j hj => hagree j (alpha_index_reads_lt i hi j hj).2)]

/-- Witness of `dxt35_colour_alpha`: two blocks with alpha bytes `88` x 8 and different
colour bytes, pixel 5: the same alpha byte from `dxt3_to_rgba`. -/
theorem dxt35_colour_alpha_witness :
    rd (dxt3_to_rgba [0x88, 0x88, 0x88, 0x88, 0x88, 0x88, 0x88, 0x88,
          0xFF, 0xFF, 0x00, 0x00, 0x1B, 0x1B, 0x1B, 0x1B] (List.replicate 64 7)) (4 * 5 + 3)
      = rd (dxt3_to_rgba [0x88, 0x88, 0x88, 0x88, 0x88, 0x88, 0x88, 0x88,
          0x00, 0xF8, 0x00, 0xF8, 0, 0, 0, 0] (List.replicate 64 0)) (4 * 5 + 3) :=
  ((dxt35_colour_alpha
    [0x88, 0x88, 0x88, 0x88, 0x88, 0x88, 0x88, 0x88, 0x00, 0xF8, 0x00, 0xF8, 0, 0, 0, 0]
    [0x88, 0x88, 0x88, 0x88, 0x88, 0x88, 0x88, 0x88,
      0xFF, 0xFF, 0x00, 0x00, 0x1B, 0x1B, 0x1B, 0x1B]
    (List.replicate 64 0) (List.replicate 64 7) (by decide) (by decide)
    (by decide)).2 5 (by decide)).1

/-! ## Reads of the DXT5 index extraction -/

/-- C16: for every pixel `i < 16` the index extraction of `dxt5_to_rgba` reads
`dxt5_block[2 + 3i/8]` and reads the next byte `dxt5_block[2 + 3i/8 + 1]` exactly when
`3i mod 8 > 5`, that is exactly when the 3-bit window at bit offset `3i` crosses a byte
boundary; every index it reads is in `[2, 8)`, so inside the six-byte index region of
the 16-byte block; and `alpha_index` is the same for two blocks that agree on the
indices read. -/
theorem dxt5_index_reads (i : Nat) (hi : i < 16) :
    (2 + i * 3 / 8) ∈ alpha_index_reads i
    ∧ ((2 + i * 3 / 8 + 1) ∈ alpha_index_reads i ↔ 3 * i % 8 > 5)
    ∧ (3 * i % 8 > 5 ↔ (3 * i + 2) / 8 ≠ 3 * i / 8)
    ∧ (∀ j, j ∈ alpha_index_reads i → 2 ≤ j ∧ j < 8 ∧ j < 16)
    ∧ (∀ a b : List Nat, (∀ j, j ∈ alpha_index_reads i → rd a j = rd b j) →
        alpha_index a i = alpha_index b i) := by
  refine ⟨?_, ?_, by omega, ?_, ?_⟩
  · unfold alpha_index_reads
    simp only []
    split_ifs <;> simp
  · unfold alpha_index_reads
    simp only [Nat.mul_comm i 3]
    split_ifs with hc
    · exact ⟨fun _ => hc, fun _ => by simp⟩
    · exact ⟨fun h => absurd h (by simp), fun h => absurd h hc⟩
  · intro j hj
    have := alpha_index_reads_lt i hi j hj
    omega
  · intro a b h
    exact alpha_index_congr a b i h

/-- Witness of `dxt5_index_reads`: pixel 5 (bit offset 15) reads block bytes 3 and 4. -/
theorem dxt5_index_reads_witness : (2 + 5 * 3 / 8 + 1) ∈ alpha_index_reads 5 :=
  (dxt5_index_reads 5 (by decide)).2.1.mpr (by decide)

/-! ## Order of the DXT5 alpha table -/

/-- C17: for all alpha endpoints `a0`, `a1` below 256 the table `alpha_table` of
`dxt5_to_rgba` is ordered and bounded by the endpoints: if `a0 > a1` then
`a0 >= A[2] >= A[3] >= A[4] >= A[5] >= A[6] >= A[7] >= a1`, and if `a0 <= a1` then
`a0 <= A[2] <= A[3] <= A[4] <= A[5] <= a1`; the interpolated quotients are below 256,
so the `uint8_t` stores keep them unchanged. -/
theorem dxt5_alpha_table_ordered (block : List Nat)
    (h0 : rd block 0 < 256) (h1 : rd block 1 < 256) :
    (rd block 0 > rd block 1 →
      rd block 0 ≥ rd (alpha_table block) 2
      ∧ rd (alpha_table block) 2 ≥ rd (alpha_table block) 3
      ∧ rd (alpha_table block) 3 ≥ rd (alpha_table block) 4
      ∧ rd (alpha_table block) 4 ≥ rd (alpha_table block) 5
      ∧ rd (alpha_table block) 5 ≥ rd (alpha_table block) 6
      ∧ rd (alpha_table block) 6 ≥ rd (alpha_table block) 7
      ∧ rd (alpha_table block) 7 ≥ rd block 1
      ∧ rd (alpha_table block) 2 = (6 * rd block 0 + 1 * rd block 1) / 7
      ∧ rd (alpha_table block) 3 = (5 * rd block 0 + 2 * rd block 1) / 7
      ∧ rd (alpha_table block) 4 = (4 * rd block 0 + 3 * rd block 1) / 7
      ∧ rd (alpha_table block) 5 = (3 * rd block 0 + 4 * rd block 1) / 7
      ∧ rd (alpha_table block) 6 = (2 * rd block 0 + 5 * rd block 1) / 7
      ∧ rd (alpha_table block) 7 = (1 * rd block 0 + 6 * rd block 1) / 7)
    ∧ (rd block 0 ≤ rd block 1 →
      rd block 0 ≤ rd (alpha_table block) 2
      ∧ rd (alpha_table block) 2 ≤ rd (alpha_table block) 3
      ∧ rd (alpha_table block) 3 ≤ rd (alpha_table block) 4
      ∧ rd (alpha_table block) 4 ≤ rd (alpha_table block) 5
      ∧ rd (alpha_table block) 5 ≤ rd block 1
      ∧ rd (alpha_table block) 2 = (4 * rd block 0 + 1 * rd block 1) / 5
      ∧ rd (alpha_table block) 3 = (3 * rd block 0 + 2 * rd block 1) / 5
      ∧ rd (alpha_table block) 4 = (2 * rd block 0 + 3 * rd block 1) / 5
      ∧ rd (alpha_table block) 5 = (1 * rd block 0 + 4 * rd block 1) / 5)
    ∧ (∀ k, k < 8 → rd (alpha_table block) k < 256) := by
  unfold alpha_table
  simp only []
  generalize rd block 0 = a0 at h0 ⊢
  generalize rd block 1 = a1 at h1 ⊢
  have e72 : (6 * a0 + 1 * a1) / 7 % 2 ^ 8 = (6 * a0 + 1 * a1) / 7 := Nat.mod_eq_of_lt (by omega)
  have e73 : (5 * a0 + 2 * a1) / 7 % 2 ^ 8 = (5 * a0 + 2 * a1) / 7 := Nat.mod_eq_of_lt (by omega)
  have e74 : (4 * a0 + 3 * a1) / 7 % 2 ^ 8 = (4 * a0 + 3 * a1) / 7 := Nat.mod_eq_of_lt (by omega)
  have e75 : (3 * a0 + 4 * a1) / 7 % 2 ^ 8 = (3 * a0 + 4 * a1) / 7 := Nat.mod_eq_of_lt (by omega)
  have e76 : (2 * a0 + 5 * a1) / 7 % 2 ^ 8 = (2 * a0 + 5 * a1) / 7 := Nat.mod_eq_of_lt (by omega)
  have e77 : (1 * a0 + 6 * a1) / 7 % 2 ^ 8 = (1 * a0 + 6 * a1) / 7 := Nat.mod_eq_of_lt (by omega)
  have e52 : (4 * a0 + 1 * a1) / 5 % 2 ^ 8 = (4 * a0 + 1 * a1) / 5 := Nat.mod_eq_of_lt (by omega)
  have e53 : (3 * a0 + 2 * a1) / 5 % 2 ^ 8 = (3 * a0 + 2 * a1) / 5 := Nat.mod_eq_of_lt (by omega)
  have e54 : (2 * a0 + 3 * a1) / 5 % 2 ^ 8 = (2 * a0 + 3 * a1) / 5 := Nat.mod_eq_of_lt (by omega)
  have e55 : (1 * a0 + 4 * a1) / 5 % 2 ^ 8 = (1 * a0 + 4 * a1) / 5 := Nat.mod_eq_of_lt (by omega)
  simp only [u8, e72, e73, e74, e75, e76, e77, e52, e53, e54, e55]
  refine ⟨?_, ?_, ?_⟩
  · intro h
    rw [if_pos h]
    simp only [rd_cons_succ, rd_cons_zero, and_true]
    refine ⟨?_, ?_, ?_, ?_, ?_, ?_, ?_⟩ <;> omega
  · intro h
    rw [if_neg (by omega)]
    simp only [rd_cons_succ, rd_cons_zero, and_true]
    refine ⟨?_, ?_, ?_, ?_, ?_⟩ <;> omega
  · intro k hk
    split_ifs <;> interval_cases k <;> simp only [rd_cons_succ, rd_cons_zero] <;> omega

/-- Witness of `dxt5_alpha_table_ordered`: endpoints `a0 = 200 > a1 = 60`. -/
theorem dxt5_alpha_table_ordered_witness :
    rd (alpha_table [200, 60, 0, 0, 0, 0, 0, 0, 0, 0, 0, 0, 0, 0, 0, 0]) 4
      ≥ rd (alpha_table [200, 60, 0, 0, 0, 0, 0, 0, 0, 0, 0, 0, 0, 0, 0, 0]) 5 :=
  ((dxt5_alpha_table_ordered [200, 60, 0, 0, 0, 0, 0, 0, 0, 0, 0, 0, 0, 0, 0, 0]
    (by decide) (by decide)).1 (by decide)).2.2.2.1

/-! ## The verbose print loop -/

theorem verbose_idx_eq (width x y : Nat) (hw : width < 2 ^ 27) (hx : x < 4) (hy : y < 4) :
    verbose_idx width x y = (((y * width + x) * 4 : Nat) : Int) := by
  unfold verbose_idx
  rw [toU32_cast y (by omega), toU32_cast x (by omega)]
  have h1 : y * width ≤ 3 * width := Nat.mul_le_mul_right width (by omega)
  rw [u32_small (y * width) (by omega), u32_small (y * width + x) (by omega),
    u32_small ((y * width + x) * 4) (by omega), toInt_small _ (by omega)]

theorem decoded_size_eq (width height : Nat) (hov : 4 * (width * height) < 2 ^ 31) :
    decoded_size width height = 4 * (width * height) := by
  unfold decoded_size total_pixels
  rw [u32_small (width * height) (by omega), u32_small _ (by omega)]
  omega

/-- C19 fails on small images: for `1 <= width < 2^27`, `1 <= height` and
`4 * width * height < 2^31`, all the indices `idx .. idx + 3` that the verbose loop of
`decode_dxt_image` reads are inside the decoded buffer if and only if
`3 * width + 3 < width * height`; the last read, for `x = y = 3`, is at index
`4 * (3 * width + 3) + 3`.  So images with fewer than four rows (and those with four
rows and fewer than four columns) are read past the end of the buffer. -/
theorem verbose_reads_in_bounds_iff (width height : Nat) (_hw : 1 ≤ width) (hw2 : width < 2 ^ 27)
    (_hh : 1 ≤ height) (hov : 4 * (width * height) < 2 ^ 31) :
    (∀ i, i ∈ verbose_reads width → 0 ≤ i ∧ i < (decoded_size width height : Int))
      ↔ 3 * width + 3 < width * height := by
  rw [decoded_size_eq width height hov]
  constructor
  · intro h
    have hmem : verbose_idx width 3 3 + 3 ∈ verbose_reads width := by
      unfold verbose_reads
      simp only [List.mem_flatMap, List.mem_range]
      exact ⟨3, by omega, 3, by omega, by simp⟩
    have h2 := (h _ hmem).2
    rw [verbose_idx_eq width 3 3 hw2 (by omega) (by omega)] at h2
    omega
  · intro h i hi
    unfold verbose_reads at hi
    simp only [List.mem_flatMap, List.mem_range, List.mem_cons, List.mem_singleton,
      List.not_mem_nil, or_false] at hi
    obtain ⟨y, hy, x, hx, hi⟩ := hi
    rw [verbose_idx_eq width x y hw2 hx hy] at hi
    have h1 : y * width ≤ 3 * width := Nat.mul_le_mul_right width (by omega)
    rcases hi with rfl | rfl | rfl | rfl <;> omega

/-- Witness of `verbose_reads_in_bounds_iff`: for a 1 x 1 image the verbose loop
reads outside the four bytes of the decoded buffer. -/
theorem verbose_reads_in_bounds_iff_witness :
    ¬ (∀ i, i ∈ verbose_reads 1 → 0 ≤ i ∧ i < (decoded_size 1 1 : Int)) :=
  fun h => absurd ((verbose_reads_in_bounds_iff 1 1 (by decide) (by decide) (by decide)
    (by decide)).mp h) (by decide)

/-! ## The memory accesses are those of the model -/

/-- The pointer `dxt_block` is `image_data + block_offset`. -/
theorem dxt_block_offset (image_data : List Nat) (width dxt_type blk_x blk_y : Nat) :
    dxt_block image_data width dxt_type blk_x blk_y
      = image_data.drop (block_offset width dxt_type blk_x blk_y) := rfl

/-- The tile that the `switch (dxt_type)` produces depends on the block only through
the indices in `block_reads`. -/
theorem decode_block_reads (dxt_type : Nat) (a b s : List Nat)
    (h : ∀ r, r ∈ block_reads dxt_type → rd a r = rd b r) :
    decode_block dxt_type a s = decode_block dxt_type b s := by
  unfold decode_block
  unfold block_reads at h
  split_ifs with h1 h3 h5
  · rw [if_pos h1] at h
    exact dxt1_congr a b s (fun j hj =>
      h j ((by decide : ∀ j, j < 8 → j ∈ dxt1_reads) j hj))
  · rw [if_neg h1, if_pos h3] at h
    exact dxt3_congr a b s (fun j hj =>
      h j ((by decide : ∀ j, j < 16 → j ∈ dxt3_reads) j hj))
  · rw [if_neg h1, if_neg h3, if_pos h5] at h
    exact dxt5_congr a b s (fun j hj =>
      h j ((by decide : ∀ j, j < 16 → j ∈ dxt5_reads) j hj))
  · rfl

/-- One iteration of the `px` loop performs exactly the copies of `pixel_accesses`. -/
theorem copy_pixel_accesses (width height blk_x blk_y : Nat) (tile m : List Nat) (py px : Nat) :
    copy_pixel width height blk_x blk_y tile m py px
      = (pixel_accesses width height blk_x blk_y py px).foldl
          (fun img a => wr img a.2 (rd tile a.1)) m := by
  unfold copy_pixel pixel_accesses skipped
  simp only [decide_eq_true_eq]
  split_ifs
  · rfl
  · rfl

theorem block_reads_lt (dxt_type : Nat) (ht : dxt_type = 1 ∨ dxt_type = 3 ∨ dxt_type = 5)
    (r : Nat) (hr : r ∈ block_reads dxt_type) : r < block_size dxt_type := by
  rcases ht with rfl | rfl | rfl
  · exact (by decide : ∀ r, r ∈ block_reads 1 → r < block_size 1) r hr
  · exact (by decide : ∀ r, r ∈ block_reads 3 → r < block_size 3) r hr
  · exact (by decide : ∀ r, r ∈ block_reads 5 → r < block_size 5) r hr

theorem block_writes_lt (dxt_type : Nat) (r : Nat) (hr : r ∈ block_writes dxt_type) :
    r < 64 := by
  unfold block_writes at hr
  split_ifs at hr
  · exact (by decide : ∀ r, r ∈ dxt1_writes → r < 64) r hr
  · exact (by decide : ∀ r, r ∈ dxt1_writes ++ alpha_writes → r < 64) r hr
  · exact (by decide : ∀ r, r ∈ dxt1_writes ++ alpha_writes → r < 64) r hr
  · simp at hr

theorem block_offset_eq (width height dxt_type blk_x blk_y : Nat)
    (hw : 1 ≤ width) (hh : 1 ≤ height) (hov : 4 * (width * height) < 2 ^ 31)
    (hbx : blk_x < blocks_wide width) (hby : blk_y < blocks_high height) :
    blk_y * blocks_wide width + blk_x < blocks_wide width * blocks_high height
    ∧ block_offset width dxt_type blk_x blk_y
        = (blk_y * blocks_wide width + blk_x) * block_size dxt_type := by
  obtain ⟨hw29, hh29, h16⟩ := dims_small width height hw hh hov
  rw [← blocks_wide_eq width hw29, ← blocks_high_eq height hh29] at h16
  have hn := pixel_lt blk_x blk_y (blocks_wide width) (blocks_high height) hbx hby
  have hbs : block_size dxt_type ≤ 16 := by
    unfold block_size
    split <;> omega
  have hmul : (blk_y * blocks_wide width + blk_x) * block_size dxt_type
      ≤ blocks_wide width * blocks_high height * 16 :=
    Nat.mul_le_mul (Nat.le_of_lt hn) hbs
  refine ⟨hn, ?_⟩
  unfold block_offset
  rw [u32_small (blk_y * blocks_wide width) (by omega),
    u32_small (blk_y * blocks_wide width + blk_x) (by omega), u32_small _ (by omega)]

theorem skipped_eq (width height blk_x blk_y py px : Nat)
    (hbx : blk_x * 4 + px < 2 ^ 31) (hby : blk_y * 4 + py < 2 ^ 31) :
    skipped width height blk_x blk_y py px = false
      ↔ (blk_x * 4 + px < width ∧ blk_y * 4 + py < height) := by
  unfold skipped
  rw [u32_small (blk_x * 4 + px) (by omega), u32_small (blk_y * 4 + py) (by omega),
    toInt_small _ hbx, toInt_small _ hby, toU32_cast (blk_x * 4 + px) (by omega),
    toU32_cast (blk_y * 4 + py) (by omega), decide_eq_false_iff_not]
  omega

theorem dst_idx_eq (width height blk_x blk_y py px : Nat)
    (hov : 4 * (width * height) < 2 ^ 31)
    (hx : blk_x * 4 + px < width) (hy : blk_y * 4 + py < height) :
    dst_idx width blk_x blk_y py px
      = ((((blk_y * 4 + py) * width + (blk_x * 4 + px)) * 4 : Nat) : Int)
    ∧ (blk_y * 4 + py) * width + (blk_x * 4 + px) < width * height := by
  have hlt := pixel_lt _ _ width height hx hy
  have h1 : width ≤ width * height := Nat.le_mul_of_pos_right width (by omega)
  have h2 : height ≤ width * height := Nat.le_mul_of_pos_left height (by omega)
  refine ⟨?_, hlt⟩
  unfold dst_idx
  rw [u32_small (blk_x * 4 + px) (by omega), u32_small (blk_y * 4 + py) (by omega),
    toInt_small (blk_x * 4 + px) (by omega), toInt_small (blk_y * 4 + py) (by omega),
    toU32_cast (blk_x * 4 + px) (by omega), toU32_cast (blk_y * 4 + py) (by omega),
    u32_small ((blk_y * 4 + py) * width) (by omega),
    u32_small ((blk_y * 4 + py) * width + (blk_x * 4 + px)) (by omega),
    u32_small (((blk_y * 4 + py) * width + (blk_x * 4 + px)) * 4) (by omega),
    toInt_small _ (by omega)]

/-- The loop counters stay far below `2^31` when the image size does not overflow. -/
theorem counters_small (width height blk_x blk_y : Nat)
    (hw : 1 ≤ width) (hh : 1 ≤ height) (hov : 4 * (width * height) < 2 ^ 31)
    (hbx : blk_x < blocks_wide width) (hby : blk_y < blocks_high height) :
    blk_x * 4 + 3 < 2 ^ 31 ∧ blk_y * 4 + 3 < 2 ^ 31 := by
  obtain ⟨hw29, hh29, _⟩ := dims_small width height hw hh hov
  rw [blocks_wide_eq width hw29] at hbx
  rw [blocks_high_eq height hh29] at hby
  omega

/-- The decoded image depends on `image_data` only through the indices in
`input_reads`. -/
theorem decode_blocks_reads (a b : List Nat) (width height dxt_type : Nat)
    (stack : Nat → Nat) (m : List Nat)
    (h : ∀ r, r ∈ input_reads width height dxt_type → rd a r = rd b r) :
    decode_blocks a width height dxt_type stack m
      = decode_blocks b width height dxt_type stack m := by
  unfold decode_blocks
  apply List.foldl_ext
  intro img blk_y hby
  apply List.foldl_ext
  intro img2 blk_x hbx
  unfold decode_tile
  simp only []
  rw [dxt_block_offset, dxt_block_offset,
    decode_block_reads dxt_type (a.drop (block_offset width dxt_type blk_x blk_y))
      (b.drop (block_offset width dxt_type blk_x blk_y)) _ (fun r hr => by
        rw [rd_drop, rd_drop]
        apply h
        unfold input_reads
        simp only [List.mem_flatMap, List.mem_map]
        exact ⟨blk_y, hby, blk_x, hbx, r, hr, rfl⟩)]

/-! ## All accesses of the grid decoder are in bounds -/

/-- C18: for `width >= 1`, `height >= 1`, a DXT variant 1, 3 or 5, no overflow of the
index arithmetic (`4 * width * height < 2^31`) and `image_data` of at least
`ceil(width/4) * ceil(height/4) * block_size` bytes: every index of `image_data` read
by `decode_dxt_image` and the block decoders is below that number (so inside
`image_data`), every tile index written by the block decoders and every tile index read
by the copy loop is below 64, and every index of `decoded_image` written by the copy
loop is non-negative and below `4 * width * height`, the size of the buffer. -/
theorem decode_accesses_in_bounds (image_data : List Nat) (width height dxt_type : Nat)
    (hw : 1 ≤ width) (hh : 1 ≤ height) (hov : 4 * (width * height) < 2 ^ 31)
    (ht : dxt_type = 1 ∨ dxt_type = 3 ∨ dxt_type = 5)
    (hdata : (width + 3) / 4 * ((height + 3) / 4) * block_size dxt_type ≤ image_data.length) :
    (∀ r, r ∈ input_reads width height dxt_type →
        r < (width + 3) / 4 * ((height + 3) / 4) * block_size dxt_type ∧ r < image_data.length)
    ∧ (∀ r, r ∈ block_writes dxt_type → r < 64)
    ∧ (∀ a, a ∈ copy_accesses width height →
        a.1 < 64 ∧ 0 ≤ a.2 ∧ a.2 < ((4 * (width * height) : Nat) : Int))
    ∧ decoded_size width height = 4 * (width * height) := by
  obtain ⟨hw29, hh29, _⟩ := dims_small width height hw hh hov
  refine ⟨?_, block_writes_lt dxt_type, ?_, decoded_size_eq width height hov⟩
  · intro r hr
    unfold input_reads at hr
    simp only [List.mem_flatMap, List.mem_map, List.mem_range] at hr
    obtain ⟨blk_y, hby, blk_x, hbx, r0, hr0, rfl⟩ := hr
    obtain ⟨hn, heq⟩ := block_offset_eq width height dxt_type blk_x blk_y hw hh hov hbx hby
    have hr0lt := block_reads_lt dxt_type ht r0 hr0
    rw [heq]
    rw [blocks_wide_eq width hw29, blocks_high_eq height hh29] at hn
    rw [blocks_wide_eq width hw29]
    have hmul : (blk_y * ((width + 3) / 4) + blk_x + 1) * block_size dxt_type
        ≤ (width + 3) / 4 * ((height + 3) / 4) * block_size dxt_type :=
      Nat.mul_le_mul_right _ hn
    rw [Nat.succ_mul] at hmul
    omega
  · intro a ha
    unfold copy_accesses at ha
    simp only [List.mem_flatMap, List.mem_range] at ha
    obtain ⟨blk_y, hby, blk_x, hbx, py, hpy, px, hpx, ha⟩ := ha
    obtain ⟨hcx, hcy⟩ := counters_small width height blk_x blk_y hw hh hov hbx hby
    unfold pixel_accesses at ha
    cases hs : skipped width height blk_x blk_y py px with
    | true => simp [hs] at ha
    | false =>
      obtain ⟨hx, hy⟩ := (skipped_eq width height blk_x blk_y py px (by omega) (by omega)).mp hs
      obtain ⟨hd, hlt⟩ := dst_idx_eq width height blk_x blk_y py px hov hx hy
      simp only [hs, Bool.false_eq_true, if_false, List.mem_cons, List.mem_singleton,
        List.not_mem_nil, or_false, hd] at ha
      unfold src_idx at ha
      rcases ha with rfl | rfl | rfl | rfl <;> refine ⟨?_, ?_, ?_⟩ <;> simp only [] <;> omega

/-- Witness of `decode_accesses_in_bounds`: a 5 x 3 DXT1 image of two blocks: the
last read of `image_data`, at index 15, is inside its 16 bytes. -/
theorem decode_accesses_in_bounds_witness :
    15 < (5 + 3) / 4 * ((3 + 3) / 4) * block_size 1
      ∧ 15 < ([0x00, 0xF8, 0x00, 0xF8, 0x00, 0x00, 0x00, 0x00]
        ++ [0xFF, 0xFF, 0x00, 0x00, 0x00, 0x00, 0x00, 0x00]).length :=
  (decode_accesses_in_bounds ([0x00, 0xF8, 0x00, 0xF8, 0x00, 0x00, 0x00, 0x00]
      ++ [0xFF, 0xFF, 0x00, 0x00, 0x00, 0x00, 0x00, 0x00]) 5 3 1
    (by decide) (by decide) (by decide) (by decide) (by decide)).1 15 (by decide)

/-! ## Every output pixel is written exactly once -/

/-- After the block loops every byte of the decoded buffer comes from a decoded tile:
the content that `malloc` returned is gone. -/
theorem decode_blocks_heap (image_data : List Nat) (width height dxt_type : Nat)
    (stack : Nat → Nat) (m1 m2 : List Nat) (hw : 1 ≤ width) (hh : 1 ≤ height)
    (hov : 4 * (width * height) < 2 ^ 31)
    (hm1 : m1.length = 4 * (width * height)) (hm2 : m2.length = 4 * (width * height)) :
    decode_blocks image_data width height dxt_type stack m1
      = decode_blocks image_data width height dxt_type stack m2 := by
  apply List.ext_getElem (by rw [length_decode_blocks, length_decode_blocks, hm1, hm2])
  intro n h1 h2
  rw [← rd_eq_getElem _ n h1, ← rd_eq_getElem _ n h2]
  rw [length_decode_blocks, hm1] at h1
  have hq : n / 4 < width * height := by omega
  have hx : n / 4 % width < width := Nat.mod_lt _ (by omega)
  have hy : n / 4 / width < height := by
    rw [Nat.div_lt_iff_lt_mul (by omega), Nat.mul_comm]
    exact hq
  have hn : n = 4 * (n / 4 / width * width + n / 4 % width) + n % 4 := by
    rw [Nat.div_add_mod']
    omega
  rw [hn, decode_blocks_rd image_data width height dxt_type stack m1 hw hh hov hm1 _ _ _ hx hy
      (by omega),
    decode_blocks_rd image_data width height dxt_type stack m2 hw hh hov hm2 _ _ _ hx hy
      (by omega)]

/-- C20: for `width >= 1`, `height >= 1` and `4 * width * height < 2^31` (no index
overflow), the copy loop of `decode_dxt_image` writes every output pixel exactly once:
two iterations `(bx, by, px, py)` that are not skipped and write a common byte
(`dst_idx + k`) are the same iteration and the same byte, so distinct iterations write
to disjoint four-byte regions; every offset `(y * width + x) * 4` with `x < width`,
`y < height` is the `dst_idx` of an iteration that is not skipped; and the decoded
image does not depend on what the `malloc`ed buffer held, so no byte of it is left
uninitialised. -/
theorem copy_loop_once (image_data : List Nat) (width height dxt_type : Nat)
    (g1 g2 stack : Nat → Nat)
    (hw : 1 ≤ width) (hh : 1 ≤ height) (hov : 4 * (width * height) < 2 ^ 31) :
    (∀ bx bY px py bx2 bY2 px2 py2 k k2 : Nat,
      bx < blocks_wide width → bY < blocks_high height → px < 4 → py < 4 →
      bx2 < blocks_wide width → bY2 < blocks_high height → px2 < 4 → py2 < 4 →
      k < 4 → k2 < 4 →
      skipped width height bx bY py px = false → skipped width height bx2 bY2 py2 px2 = false →
      dst_idx width bx bY py px + (k : Int) = dst_idx width bx2 bY2 py2 px2 + (k2 : Int) →
      bx = bx2 ∧ bY = bY2 ∧ px = px2 ∧ py = py2 ∧ k = k2)
    ∧ (∀ x y, x < width → y < height →
        ∃ bx bY px py, bx < blocks_wide width ∧ bY < blocks_high height ∧ px < 4 ∧ py < 4
          ∧ skipped width height bx bY py px = false
          ∧ dst_idx width bx bY py px = (((y * width + x) * 4 : Nat) : Int)
          ∧ ∀ k, k < 4 →
              (src_idx py px + k, dst_idx width bx bY py px + (k : Int))
                ∈ copy_accesses width height)
    ∧ decode_dxt_image image_data width height dxt_type (some g1) stack
        = decode_dxt_image image_data width height dxt_type (some g2) stack := by
  obtain ⟨hw29, hh29, _⟩ := dims_small width height hw hh hov
  refine ⟨?_, ?_, ?_⟩
  · intro bx bY px py bx2 bY2 px2 py2 k k2 hbx hby hpx hpy hbx2 hby2 hpx2 hpy2 hk hk2 hs hs2 he
    obtain ⟨hcx, hcy⟩ := counters_small width height bx bY hw hh hov hbx hby
    obtain ⟨hcx2, hcy2⟩ := counters_small width height bx2 bY2 hw hh hov hbx2 hby2
    obtain ⟨hx, hy⟩ := (skipped_eq width height bx bY py px (by omega) (by omega)).mp hs
    obtain ⟨hx2, hy2⟩ := (skipped_eq width height bx2 bY2 py2 px2 (by omega) (by omega)).mp hs2
    rw [(dst_idx_eq width height bx bY py px hov hx hy).1,
      (dst_idx_eq width height bx2 bY2 py2 px2 hov hx2 hy2).1] at he
    have he2 : ((bY * 4 + py) * width + (bx * 4 + px)) * 4 + k
        = ((bY2 * 4 + py2) * width + (bx2 * 4 + px2)) * 4 + k2 := by exact_mod_cast he
    have hq : (bY * 4 + py) * width + (bx * 4 + px)
        = (bY2 * 4 + py2) * width + (bx2 * 4 + px2) := by omega
    obtain ⟨h1, h2⟩ := pixel_inj _ _ _ _ width hx hx2 hq
    omega
  · intro x y hx hy
    have ex : x / 4 * 4 + x % 4 = x := by omega
    have ey : y / 4 * 4 + y % 4 = y := by omega
    have hbx : x / 4 < blocks_wide width := by rw [blocks_wide_eq width hw29]; omega
    have hby : y / 4 < blocks_high height := by rw [blocks_high_eq height hh29]; omega
    have hs : skipped width height (x / 4) (y / 4) (y % 4) (x % 4) = false :=
      (skipped_eq width height (x / 4) (y / 4) (y % 4) (x % 4) (by omega) (by omega)).mpr
        ⟨by omega, by omega⟩
    refine ⟨x / 4, y / 4, x % 4, y % 4, hbx, hby, by omega, by omega, hs, ?_, ?_⟩
    · rw [(dst_idx_eq width height (x / 4) (y / 4) (y % 4) (x % 4) hov (by omega) (by omega)).1,
        ex, ey]
    · intro k hk
      unfold copy_accesses
      simp only [List.mem_flatMap, List.mem_range]
      refine ⟨y / 4, hby, x / 4, hbx, y % 4, by omega, x % 4, by omega, ?_⟩
      unfold pixel_accesses
      rw [hs]
      interval_cases k <;> simp
  · unfold decode_dxt_image
    simp only []
    rw [decode_blocks_heap image_data width height dxt_type stack _
      ((List.range (decoded_size width height)).map g2) hw hh hov
      (by rw [List.length_map, List.length_range, decoded_size_eq width height hov])
      (by rw [List.length_map, List.length_range, decoded_size_eq width height hov])]

/-- Witness of `copy_loop_once`: a 5 x 3 DXT1 image decoded into a buffer that held
`09` everywhere and into one that held `AA` everywhere: the same image. -/
theorem copy_loop_once_witness :
    decode_dxt_image ([0x00, 0xF8, 0x00, 0xF8, 0x00, 0x00, 0x00, 0x00]
        ++ [0xFF, 0xFF, 0x00, 0x00, 0x00, 0x00, 0x00, 0x00]) 5 3 1
        (some (fun _ => 9)) (fun _ => 7)
      = decode_dxt_image ([0x00, 0xF8, 0x00, 0xF8, 0x00, 0x00, 0x00, 0x00]
        ++ [0xFF, 0xFF, 0x00, 0x00, 0x00, 0x00, 0x00, 0x00]) 5 3 1
        (some (fun _ => 0xAA)) (fun _ => 7) :=
  (copy_loop_once ([0x00, 0xF8, 0x00, 0xF8, 0x00, 0x00, 0x00, 0x00]
      ++ [0xFF, 0xFF, 0x00, 0x00, 0x00, 0x00, 0x00, 0x00]) 5 3 1
    (fun _ => 9) (fun _ => 0xAA) (fun _ => 7) (by decide) (by decide) (by decide)).2.2

/-! ## Concrete runs of the model -/

/-- The three-colour example block evaluated from a scratch tile filled with `07`. -/
theorem run_dxt1_transparent :
    dxt1_to_rgba [0x00, 0x00, 0xFF, 0xFF, 0x00, 0x00, 0x00, 0xFF] (List.replicate 64 7)
      = (List.replicate 12 [0, 0, 0, 255]).flatten ++ (List.replicate 4 [0, 0, 0, 0]).flatten := by
  decide

/-- A DXT5 block with endpoints `FF 00` and the index pattern `0,2,3,4,5,6,7,1`
repeated: the alpha bytes of the sixteen pixels. -/
theorem run_dxt5_ramp :
    (List.range 16).map (fun i =>
      rd (dxt5_to_rgba [0xFF, 0x00, 0xD0, 0x58, 0x3F, 0xD0, 0x58, 0x3F,
        0x00, 0xF8, 0x00, 0xF8, 0x00, 0x00, 0x00, 0x00] (List.replicate 64 7)) (4 * i + 3))
      = [255, 218, 182, 145, 109, 72, 36, 0, 255, 218, 182, 145, 109, 72, 36, 0] := by
  decide

/-- A 5 x 3 DXT1 image of a red block and a white block: four red pixels and one
white pixel in each of the three rows. -/
theorem run_decode_5x3 :
    decode_dxt_image ([0x00, 0xF8, 0x00, 0xF8, 0x00, 0x00, 0x00, 0x00]
        ++ [0xFF, 0xFF, 0x00, 0x00, 0x00, 0x00, 0x00, 0x00]) 5 3 1
        (some (fun _ => 9)) (fun _ => 7)
      = some (List.replicate 3
          [248, 0, 0, 255, 248, 0, 0, 255, 248, 0, 0, 255, 248, 0, 0, 255,
           248, 252, 248, 255]).flatten := by
  decide

/-- An 8 x 8 DXT1 file whose `mip_lengths[0]` is 8, one block instead of four: the
decoder is called on the eight-byte slice and reads `image_data[31]`. -/
theorem run_short_mip :
    convert_blp_file (some (sample_file 1 2 0 8 8 1172 8
          [0x00, 0xF8, 0x00, 0xF8, 0, 0, 0, 0])) false true
        = some [.fopen, .fread header_size, .malloc 8, .fseek 1172, .fread 8,
            .decode_dxt_image [0x00, 0xF8, 0x00, 0xF8, 0, 0, 0, 0] 8 8 1 false, .fclose]
    ∧ 31 ∈ input_reads 8 8 1
    ∧ [0x00, 0xF8, 0x00, 0xF8, 0, 0, 0, 0].length = 8 := by
  set_option maxRecDepth 100000 in decide

/-- A 4 x 4 DXT1 file with `content_type = 1` run with `verbose`: the calls, with the
three verbose listings. -/
theorem run_verbose_dxt1 :
    convert_blp_file (some (sample_file 1 2 0 4 4 1172 8
          [0x00, 0xF8, 0x00, 0xF8, 0, 0, 0, 0])) true true
        = some [.fopen, .fread header_size,
            .printf "BLP File Details:", .printf "  Type: %u, %s",
            .printf "  Compression: %u, %s", .printf "  Alpha Depth: %u",
            .printf "  Alpha Type: %u", .printf "  Has Mipmaps: %u",
            .printf "  Width: %u, Height: %u",
            .printf "Reading image data at offset %u, size %u bytes",
            .malloc 8, .fseek 1172, .fread 8,
            .printf "BLP is compressed with DXTC.", .printf "Image has %d bytes.",
            .decode_dxt_image [0x00, 0xF8, 0x00, 0xF8, 0, 0, 0, 0] 4 4 1 true, .fclose] := by
  set_option maxRecDepth 100000 in decide

/-- The same file with `compression = 4`, run with `verbose`: the listing reads
`compression_labels[4]`, outside the table of four entries. -/
theorem run_verbose_compression :
    convert_blp_file (some (sample_file 1 4 0 4 4 1172 8
          [0x00, 0xF8, 0x00, 0xF8, 0, 0, 0, 0])) true true = none := by
  set_option maxRecDepth 100000 in decide

end BlpConvert
